import Mathlib

/-!
# Talking Async: message framer, relay directions, heartbeat proxy

A shallow embedding of the asynchronous programs of the repository.  Every
`co_await` and every completion handler is a point where the environment (the
sockets, the timers, the clock) hands a result back to the program; the
embedding makes that result an explicit input, so each coroutine and each
handler becomes a pure function of the program state and of the environment's
answers.

Bytes are `Char`s, a `std::string` or the used part of a `std::array<char, N>`
is a `List Char`.
-/

namespace TalkingAsync

/-- The content of a `std::string` or of a byte buffer. -/
abbrev Bytes := List Char

/-! ## Message framer (`episode2/step_7.cpp`, `episode2/step_8.cpp`) -/

/-- The delimiter passed to `asio::async_read_until` by `read_message`. -/
def delim : Char := '|'

/-- Position of the first occurrence of `c`, as `std::find` from the start of
the buffer: `none` stands for the end iterator. -/
def find (c : Char) : Bytes → Option Nat
  | [] => none
  | x :: xs => if x = c then some 0 else (find c xs).map (· + 1)

/-- One completion of the stream's `async_read_some` while a `read_message`
call is waiting: bytes that arrived, a failure (EOF or any other error), or
the abort of the read because cancellation of the call was requested (the
timeout of `step_8.cpp` winning the race). -/
inductive ReadEvent where
  | data (chunk : Bytes)
  | error
  | cancel
deriving DecidableEq

/-- Outcome of `asio::async_read_until(stream_, dynamic_buffer(message_buffer_), '|')`.
`pending`: the stream has nothing more to deliver and the operation is still
outstanding.  `done e n cancelled buffer rest`: the operation completed with
error flag `e` and count `n`; `cancelled` tells whether cancellation was
requested during the call; `buffer` is `message_buffer_` afterwards and `rest`
the stream events not yet consumed. -/
inductive ReadUntil where
  | pending (buffer : Bytes)
  | done (e : Bool) (n : Nat) (cancelled : Bool) (buffer : Bytes) (rest : List ReadEvent)
deriving DecidableEq

/-- The composed operation `asio::async_read_until` on a dynamic string buffer
(library behaviour, `asio/impl/read_until.hpp`): search the buffer from its
start for the delimiter; when found complete with `n` = position + 1 (the
bytes up to and including the delimiter); otherwise read some more from the
stream, append what arrived to the buffer and search again.  A failed read
completes the operation with the error and `n = 0`; a read that transfers no
bytes without an error completes it with the size of the buffer searched so
far.  The string's `max_size` is not reached. -/
def async_read_until : Bytes → List ReadEvent → ReadUntil
  | buf, [] =>
    match find delim buf with
    | some i => .done false (i + 1) false buf []
    | none => .pending buf
  | buf, ev :: rest =>
    match find delim buf with
    | some i => .done false (i + 1) false buf (ev :: rest)
    | none =>
      match ev with
      | .data chunk =>
        if chunk = [] then .done false buf.length false buf rest
        else async_read_until (buf ++ chunk) rest
      | .error => .done true 0 false buf rest
      | .cancel => .done true 0 true buf rest

/-- What a call of `message_reader::read_message` leaves behind.  `pending`:
the call is suspended in the read, with the bytes received so far in
`message_buffer_`.  `returned message cancelled message_buffer_ rest`: the
string the coroutine returned, whether cancellation had been requested
(`step_8.cpp` only), the buffer afterwards and the unconsumed stream. -/
inductive ReadMessage where
  | pending (message_buffer_ : Bytes)
  | returned (message : Bytes) (cancelled : Bool) (message_buffer_ : Bytes)
      (rest : List ReadEvent)
deriving DecidableEq

namespace step_7

/-- Lines 39-46 of `episode2/step_7.cpp`: the statements of `read_message`
after the `co_await`, given the pair `[e, n]` and the buffer as the read left
it.  Returns the message and the new `message_buffer_`. -/
def read_message_tail (e : Bool) (n : Nat) (message_buffer_ : Bytes) : Bytes × Bytes :=
  if e then
    ([], message_buffer_)
  else
    (message_buffer_.take n, message_buffer_.drop n)

/-- The coroutine `message_reader::read_message` of `episode2/step_7.cpp`. -/
def read_message (message_buffer_ : Bytes) (stream : List ReadEvent) : ReadMessage :=
  match async_read_until message_buffer_ stream with
  | .pending buffer => .pending buffer
  | .done e n _ buffer rest =>
    .returned (read_message_tail e n buffer).1 false (read_message_tail e n buffer).2 rest

end step_7

namespace step_8

/-- Lines 54-68 of `episode2/step_8.cpp`: the statements of `read_message`
after the read, given whether `cancellation_state.cancelled()` is not `none`,
the pair `[e, n]` and the buffer as the read left it. -/
def read_message_tail (cancelled e : Bool) (n : Nat) (message_buffer_ : Bytes) :
    Bytes × Bytes :=
  if cancelled then
    ([], message_buffer_)
  else if e then
    ([], message_buffer_)
  else
    (message_buffer_.take n, message_buffer_.drop n)

/-- The coroutine `message_reader::read_message` of `episode2/step_8.cpp`. -/
def read_message (message_buffer_ : Bytes) (stream : List ReadEvent) : ReadMessage :=
  match async_read_until message_buffer_ stream with
  | .pending buffer => .pending buffer
  | .done e n cancelled buffer rest =>
    .returned (read_message_tail cancelled e n buffer).1 cancelled
      (read_message_tail cancelled e n buffer).2 rest

end step_8

/-- A line the session writes to `std::cout`. -/
inductive Output where
  | received (message : Bytes)
  | timed_out
deriving DecidableEq

/-- An observed run of a `session` coroutine: the lines written, the content
of the reader's `message_buffer_` at the end of the observation, and whether
the coroutine reached `co_return` (otherwise it is suspended in a read). -/
structure SessionRun where
  out : List Output
  message_buffer_ : Bytes
  returned : Bool
deriving DecidableEq

/-- Prepend a line to the output of a run. -/
def SessionRun.push (o : Output) (s : SessionRun) : SessionRun :=
  { s with out := o :: s.out }

namespace step_7

/-- The coroutine `session` of `episode2/step_7.cpp` (lines 54-71), started
with the reader's buffer `message_buffer_`; `fuel` bounds the number of loop
iterations. -/
def session : Nat → Bytes → List ReadEvent → Option SessionRun
  | 0, _, _ => none
  | fuel + 1, message_buffer_, stream =>
    match read_message message_buffer_ stream with
    | .pending buffer => some ⟨[], buffer, false⟩
    | .returned message _ buffer rest =>
      if message ≠ [] then
        (session fuel buffer rest).map (SessionRun.push (.received message))
      else
        some ⟨[], buffer, true⟩

end step_7

namespace step_8

/-- The coroutine `session` of `episode2/step_8.cpp` (lines 83-111):
`read_message() || timeout(5s)`; the timeout winning the race is the stream
event `cancel`, which makes `result.index()` 1. -/
def session : Nat → Bytes → List ReadEvent → Option SessionRun
  | 0, _, _ => none
  | fuel + 1, message_buffer_, stream =>
    match read_message message_buffer_ stream with
    | .pending buffer => some ⟨[], buffer, false⟩
    | .returned message cancelled buffer rest =>
      if cancelled then
        (session fuel buffer rest).map (SessionRun.push .timed_out)
      else if message ≠ [] then
        (session fuel buffer rest).map (SessionRun.push (.received message))
      else
        some ⟨[], buffer, true⟩

end step_8

/-! ## Relay directions and watchdog of the coroutine proxy (`episode1`) -/

/-- A `std::chrono` duration of `k` seconds, in the nanosecond ticks of
`steady_clock`; time points are `Int` tick counts since the clock's epoch. -/
def seconds (k : Int) : Int := k * 1000000000

/-- Size of the `std::array<char, 1024>` relay buffers. -/
def data_size : Nat := 1024

/-- The statement `deadline = std::max(deadline, steady_clock::now() + 5s)`. -/
def refresh_deadline (deadline now : Int) : Int :=
  max deadline (now + seconds 5)

/-- Effect of a successful `async_read_some(buffer(data))` that has `chunk`
available: at most `data.size()` bytes are transferred to the front of the
array.  Returns the array afterwards and the count `n`. -/
def read_some (data chunk : Bytes) : Bytes × Nat :=
  (chunk.take data_size ++ data.drop (chunk.take data_size).length,
    (chunk.take data_size).length)

/-- The bytes designated by `buffer(data, n)`. -/
def buffer (data : Bytes) (n : Nat) : Bytes :=
  data.take n

/-- What the environment answers during one iteration of a relay loop: the
clock reading at the top of the loop, the completion of `async_read_some`
(`none` when `e1` is set, otherwise the bytes that were available) and whether
`async_write` completed with `e2` set. -/
structure Iteration where
  now : Int
  read : Option Bytes
  e2 : Bool
deriving DecidableEq

/-- An operation a relay direction starts on its sockets. -/
inductive RelayOp where
  | read
  | write (bytes : Bytes)
deriving DecidableEq

/-- An observed run of a relay loop: the shared deadline afterwards, the
operations started in order, and whether the loop was left (`co_return` or
`break`); otherwise the observation ends with the loop still running. -/
structure TransferRun where
  deadline : Int
  ops : List RelayOp
  returned : Bool
deriving DecidableEq

/-- The coroutine `transfer` of `episode1/step_5.cpp` (lines 20-36); the same
loop is the body of `client_to_server` and `server_to_client` in
`episode1/step_3.cpp` and `step_4.cpp`.  `data` is the local array. -/
def transfer (data : Bytes) (deadline : Int) : List Iteration → TransferRun
  | [] => ⟨deadline, [], false⟩
  | it :: rest =>
    match it.read with
    | none => ⟨refresh_deadline deadline it.now, [.read], true⟩
    | some chunk =>
      if it.e2 then
        ⟨refresh_deadline deadline it.now,
          [.read, .write (buffer (read_some data chunk).1 (read_some data chunk).2)], true⟩
      else
        let r := transfer (read_some data chunk).1 (refresh_deadline deadline it.now) rest
        ⟨r.deadline,
          .read :: .write (buffer (read_some data chunk).1 (read_some data chunk).2) :: r.ops,
          r.returned⟩

/-- The bytes of the writes among the operations of a run, in order. -/
def writes : List RelayOp → List Bytes
  | [] => []
  | .read :: ops => writes ops
  | .write bytes :: ops => bytes :: writes ops

/-- The chunks returned by the successful reads that precede the first failed
read of a script. -/
def chunks_before_failure : List Iteration → List Bytes
  | [] => []
  | it :: rest =>
    match it.read with
    | none => []
    | some chunk => chunk :: chunks_before_failure rest

/-- The struct `proxy_state` of `episode1/step_3.cpp`: the two sockets (open or
closed) and the shared deadline. -/
structure proxy_state where
  client_open : Bool
  server_open : Bool
  deadline : Int
deriving DecidableEq

/-- The coroutine `client_to_server` of `episode1/step_3.cpp` (lines 31-50):
the relay loop on `state->deadline`, and both sockets closed once the loop is
left by `break`. -/
def client_to_server (data : Bytes) (script : List Iteration) (state : proxy_state) :
    proxy_state × List RelayOp :=
  let r := transfer data state.deadline script
  if r.returned then
    (⟨false, false, r.deadline⟩, r.ops)
  else
    ({ state with deadline := r.deadline }, r.ops)

/-- The coroutine `server_to_client` of `episode1/step_3.cpp` (lines 52-71),
the mirror image of `client_to_server`. -/
def server_to_client (data : Bytes) (script : List Iteration) (state : proxy_state) :
    proxy_state × List RelayOp :=
  let r := transfer data state.deadline script
  if r.returned then
    (⟨false, false, r.deadline⟩, r.ops)
  else
    ({ state with deadline := r.deadline }, r.ops)

/-- One evaluation of the loop condition of the coroutine `watchdog` of
`episode1/step_3.cpp` (lines 73-87), at entry or after a wake-up, with the
clock reading `now` and the shared state as the relay directions left it.
`some t`: the timer is set to expire at `t` and the coroutine waits again;
`none`: the loop is left and both sockets are closed. -/
def watchdog (now : Int) (state : proxy_state) : proxy_state × Option Int :=
  if state.deadline > now then
    (state, some state.deadline)
  else
    ({ state with client_open := false, server_open := false }, none)

/-! ## The callback proxy (`episode2/step_0.cpp`, `step_3.cpp`, `step_4.cpp`) -/

/-- An operation the proxy starts, or the closing of its sockets. -/
inductive Action where
  | connect
  | client_read
  | server_write (bytes : Bytes)
  | server_read
  | client_write (bytes : Bytes)
  | watchdog_wait (expiry : Int)
  | close
deriving DecidableEq

/-- Which completion handler of one callback chain is outstanding. -/
inductive Chain where
  | idle
  | reading
  | writing
deriving DecidableEq

/-- The class `proxy` of `episode2/step_4.cpp`: its data members (sockets as
open flags), the completion handlers that are outstanding, and the log of the
operations started so far. -/
structure proxy where
  client_open : Bool
  server_open : Bool
  data_from_client_ : Bytes
  data_from_server_ : Bytes
  deadline_ : Int
  num_heartbeats_ : Nat
  connecting : Bool
  client_chain : Chain
  server_chain : Chain
  watchdog_waiting : Bool
  log : List Action
deriving DecidableEq

/-- A proxy as constructed by `std::make_shared<proxy>(std::move(client))`:
the accepted client socket is open, the server socket is not, the arrays hold
whatever bytes they hold, the deadline is the clock's epoch. -/
def proxy.make (data_from_client_ data_from_server_ : Bytes) : proxy :=
  { client_open := true, server_open := false,
    data_from_client_ := data_from_client_, data_from_server_ := data_from_server_,
    deadline_ := 0, num_heartbeats_ := 0, connecting := false,
    client_chain := .idle, server_chain := .idle, watchdog_waiting := false, log := [] }

/-- Number of values of `std::size_t` (LP64). -/
def size_modulus : Nat := 2 ^ 64

/-- The bytes of `asio::buffer("<heartbeat ")`: the overload for an array
`const char (&)[N]` covers all `N` elements, and the string literal is an array
of 12 `char`, its 11 characters and the terminating NUL. -/
def heartbeat_open : Bytes := "<heartbeat ".toList ++ [Char.ofNat 0]

/-- The bytes of `asio::buffer(">\r\n")`: an array of 4 `char`, the 3
characters and the terminating NUL. -/
def heartbeat_close : Bytes := ">\r\n".toList ++ [Char.ofNat 0]

/-- The decimal digits of `std::to_string(n)`. -/
def to_string (n : Nat) : Bytes := Nat.toDigits 10 n

/-- The buffer sequence given to `asio::buffer_copy` in
`write_heartbeat_to_client`, concatenated. -/
def heartbeat_frame (num_heartbeats_ : Nat) : Bytes :=
  heartbeat_open ++ to_string num_heartbeats_ ++ heartbeat_close

/-- Effect of `asio::buffer_copy(buffer(target), source)` on one of the
1024-byte arrays: as many bytes as fit are copied to the front of the target.
Returns the target afterwards and the number of bytes copied. -/
def buffer_copy (target source : Bytes) : Bytes × Nat :=
  (source.take data_size ++ target.drop (source.take data_size).length,
    (source.take data_size).length)

namespace proxy

/-- The member function `proxy::stop`. -/
def stop (p : proxy) : proxy :=
  { p with client_open := false, server_open := false, log := p.log ++ [.close] }

/-- The member function `proxy::is_stopped`. -/
def is_stopped (p : proxy) : Bool :=
  !p.client_open && !p.server_open

/-- The body of `proxy::read_from_client` (`step_4.cpp` lines 54-73) up to the
start of the read; `now` is the reading of `steady_clock::now()`. -/
def read_from_client (now : Int) (p : proxy) : proxy :=
  { p with deadline_ := max p.deadline_ (now + seconds 5),
           client_chain := .reading, log := p.log ++ [.client_read] }

/-- The member function `proxy::write_to_server`. -/
def write_to_server (n : Nat) (p : proxy) : proxy :=
  { p with client_chain := .writing,
           log := p.log ++ [.server_write (buffer p.data_from_client_ n)] }

/-- The body of `proxy::read_from_server` (`step_4.cpp` lines 95-139) up to the
start of the parallel group: the heartbeat timer is set to expire after one
second and raced against a read on the server socket. -/
def read_from_server (p : proxy) : proxy :=
  { p with server_chain := .reading, log := p.log ++ [.server_read] }

/-- The member function `proxy::write_to_client`. -/
def write_to_client (n : Nat) (p : proxy) : proxy :=
  { p with server_chain := .writing,
           log := p.log ++ [.client_write (buffer p.data_from_server_ n)] }

/-- The member function `proxy::write_heartbeat_to_client`
(`step_4.cpp` lines 161-173, `step_3.cpp` lines 144-156). -/
def write_heartbeat_to_client (p : proxy) : proxy :=
  write_to_client (buffer_copy p.data_from_server_ (heartbeat_frame p.num_heartbeats_)).2
    { p with data_from_server_ :=
        (buffer_copy p.data_from_server_ (heartbeat_frame p.num_heartbeats_)).1 }

/-- The member function `proxy::watchdog` up to the start of the wait. -/
def watchdog (p : proxy) : proxy :=
  { p with watchdog_waiting := true, log := p.log ++ [.watchdog_wait p.deadline_] }

/-- The member function `proxy::connect_to_server` up to the start of the
connect, which opens the server socket. -/
def connect_to_server (p : proxy) : proxy :=
  { p with server_open := true, connecting := true, log := p.log ++ [.connect] }

end proxy

/-- How the race started by `read_from_server` ended: the read came first
(`order[0] == 0`) with an error (`none`) or with bytes, or the heartbeat timer
came first (`order[0] == 1`).  In `step_3.cpp` the timer case is the read
completing with `operation_aborted` after `heartbeat_signal_.emit`. -/
inductive ServerCompletion where
  | read (r : Option Bytes)
  | timer
deriving DecidableEq

/-- A completion delivered to the proxy by the `io_context`.  Where the
handler reads `steady_clock::now()`, directly or in the function it calls, the
event carries that reading as `now`. -/
inductive Event where
  | connected (error : Bool) (now : Int)
  | client_read (r : Option Bytes)
  | server_written (error : Bool) (now : Int)
  | server_completed (c : ServerCompletion)
  | client_written (error : Bool)
  | watchdog_timer (now : Int)
deriving DecidableEq

namespace proxy

/-- The completion handler of `connect_to_server` (lines 29-37). -/
def on_connected (now : Int) (error : Bool) (p : proxy) : proxy :=
  if !error then
    watchdog (read_from_server (read_from_client now p))
  else
    p

/-- The completion handler of `read_from_client` (lines 61-71). -/
def on_client_read (r : Option Bytes) (p : proxy) : proxy :=
  match r with
  | some chunk =>
    write_to_server (read_some p.data_from_client_ chunk).2
      { p with data_from_client_ := (read_some p.data_from_client_ chunk).1 }
  | none => stop p

/-- The completion handler of `write_to_server` (lines 81-91). -/
def on_server_written (now : Int) (error : Bool) (p : proxy) : proxy :=
  if !error then read_from_client now p else stop p

/-- The completion handler of `read_from_server` (`step_4.cpp` lines 114-137;
`step_3.cpp` lines 104-119). -/
def on_server_completed (c : ServerCompletion) (p : proxy) : proxy :=
  match c with
  | .read (some chunk) =>
    write_to_client (read_some p.data_from_server_ chunk).2
      { p with data_from_server_ := (read_some p.data_from_server_ chunk).1,
               num_heartbeats_ := 0 }
  | .read none => stop p
  | .timer =>
    write_heartbeat_to_client
      { p with num_heartbeats_ := (p.num_heartbeats_ + 1) % size_modulus }

/-- The completion handler of `write_to_client` (lines 147-157). -/
def on_client_written (error : Bool) (p : proxy) : proxy :=
  if !error then read_from_server p else stop p

/-- The completion handler of `watchdog` (lines 180-194). -/
def on_watchdog_timer (now : Int) (p : proxy) : proxy :=
  if !is_stopped p then
    if p.deadline_ > now then watchdog p else stop p
  else
    p

/-- Delivery of one completion: the handler that is outstanding for it runs; a
completion nothing is waiting for does not occur and changes nothing. -/
def step (p : proxy) : Event → proxy
  | .connected error now =>
    if p.connecting then on_connected now error { p with connecting := false } else p
  | .client_read r =>
    if p.client_chain = .reading then on_client_read r { p with client_chain := .idle } else p
  | .server_written error now =>
    if p.client_chain = .writing then
      on_server_written now error { p with client_chain := .idle }
    else p
  | .server_completed c =>
    if p.server_chain = .reading then
      on_server_completed c { p with server_chain := .idle }
    else p
  | .client_written error =>
    if p.server_chain = .writing then
      on_client_written error { p with server_chain := .idle }
    else p
  | .watchdog_timer now =>
    if p.watchdog_waiting then on_watchdog_timer now { p with watchdog_waiting := false } else p

/-- Delivery of a sequence of completions, in order. -/
def run (p : proxy) : List Event → proxy
  | [] => p
  | ev :: rest => run (step p ev) rest

end proxy

/-- The bytes of the writes toward the client among logged actions, in order. -/
def client_writes : List Action → List Bytes
  | [] => []
  | .client_write bytes :: log => bytes :: client_writes log
  | _ :: log => client_writes log

/-- The bytes of the writes toward the server among logged actions, in order. -/
def server_writes : List Action → List Bytes
  | [] => []
  | .server_write bytes :: log => bytes :: server_writes log
  | _ :: log => server_writes log

/-- The completions of `n` consecutive heartbeat-timer wins, each followed by
the successful completion of the write of its heartbeat frame (which starts
the next race). -/
def timer_wins : Nat → List Event
  | 0 => []
  | n + 1 => .server_completed .timer :: .client_written false :: timer_wins n

/-- The completions the client-to-server chain of the callback proxy receives
when the environment answers as in `script`: the completion of each read and,
after a successful read, the completion of the write, with the clock reading
at which that handler runs. -/
def relay_completions : List Iteration → List Event
  | [] => []
  | it :: rest =>
    match it.read with
    | none => .client_read none :: relay_completions rest
    | some chunk =>
      .client_read (some chunk) :: .server_written it.e2 it.now :: relay_completions rest

/-- The bytes that precede the first occurrence of `c` (all of them when `c`
does not occur). -/
def before (c : Char) : Bytes → Bytes
  | [] => []
  | x :: xs => if x = c then [] else x :: before c xs

/-- The framing the wire protocol prescribes: the messages of a byte sequence
are its segments terminated by the delimiter, and what follows the last
delimiter is a pending partial message.  `cur` holds the bytes of the segment
being scanned.  Returns the complete segments, each with its delimiter, and
the pending rest. -/
def frames (cur : Bytes) : Bytes → List Bytes × Bytes
  | [] => ([], cur)
  | c :: cs =>
    if c = delim then
      ((cur ++ [c]) :: (frames [] cs).1, (frames [] cs).2)
    else
      frames (cur ++ [c]) cs

/-! ## Watchdog runs, cancellation filter, listeners, sessions of the coroutine proxy -/

/-- What happens while the coroutine `watchdog` is suspended in one timer wait:
the relay directions execute their refresh statement at the clock readings
`refreshes`, in order; then the watchdog wakes and reads the clock as `now`. -/
structure Wake where
  refreshes : List Int
  now : Int
deriving DecidableEq

/-- An observed run of the coroutine `watchdog`: the shared state afterwards,
the expiry times given to `timer.expires_at` in order, and whether the loop was
left (otherwise the coroutine is suspended in its last wait). -/
structure WatchdogRun where
  state : proxy_state
  waits : List Int
  expired : Bool
deriving DecidableEq

/-- The coroutine `watchdog` of `episode1/step_3.cpp` (lines 73-87) and
`step_5.cpp` (lines 38-49) across its wake-ups: the loop condition is checked
with the clock reading `now` at entry and again after every wait, each time
against the shared deadline as it is then. -/
def watchdog_run (state : proxy_state) (now : Int) : List Wake → WatchdogRun
  | [] =>
    match (watchdog now state).2 with
    | none => ⟨(watchdog now state).1, [], true⟩
    | some t => ⟨(watchdog now state).1, [t], false⟩
  | w :: rest =>
    match (watchdog now state).2 with
    | none => ⟨(watchdog now state).1, [], true⟩
    | some t =>
      let r := watchdog_run
        { (watchdog now state).1 with
          deadline := w.refreshes.foldl refresh_deadline (watchdog now state).1.deadline }
        w.now rest
      ⟨r.state, t :: r.waits, r.expired⟩

/-- The checks a watchdog makes if it keeps waiting: the shared deadline and
the clock reading at entry and after each wake-up. -/
def checks (state : proxy_state) (now : Int) : List Wake → List (Int × Int)
  | [] => [(state.deadline, now)]
  | w :: rest =>
    (state.deadline, now) ::
      checks { state with deadline := w.refreshes.foldl refresh_deadline state.deadline }
        w.now rest

/-- The watchdog as the specification words it, over a sequence of checks
(deadline, current time): it waits again, until the deadline, at each check
where the deadline is strictly later than the current time, up to the first
check where it is not. -/
def rewaits : List (Int × Int) → List Int
  | [] => []
  | (deadline, now) :: rest => if deadline > now then deadline :: rewaits rest else []

/-- The watchdog as the specification words it: it expires at the first check
where the current time has reached the deadline. -/
def expires : List (Int × Int) → Bool
  | [] => false
  | (deadline, now) :: rest => if deadline > now then expires rest else true

namespace cancellation_type

/-- The enumerator `asio::cancellation_type::none` (a bitmask, library value). -/
def none : Nat := 0

/-- The enumerator `asio::cancellation_type::terminal`. -/
def terminal : Nat := 1

/-- The enumerator `asio::cancellation_type::partial` (the bare name is a
keyword of Lean). -/
def partial_ : Nat := 2

/-- The enumerator `asio::cancellation_type::total`. -/
def total : Nat := 4

end cancellation_type

/-- The lambda given to `this_coro::reset_cancellation_state` by `read_message`
(`episode2/step_8.cpp` lines 33-43); `&` on the enumeration is the bitwise
and of the underlying values. -/
def cancellation_filter (requested : Nat) : Nat :=
  if requested &&& cancellation_type.total ≠ cancellation_type.none then
    cancellation_type.partial_
  else
    requested

/-- What a listener does on its acceptor and executor. -/
inductive ListenAction where
  | accept
  | spawn
deriving DecidableEq

namespace coroutine

/-- The coroutine `listen` of `episode1/step_5.cpp` (lines 67-78; the same loop
in the other coroutine programs), given the error flags `e` of the accept
completions in order.  Returns the actions in order and whether the loop was
left; with the completions used up, the last accept is outstanding. -/
def listen : List Bool → List ListenAction × Bool
  | [] => ([.accept], false)
  | e :: rest =>
    if e then
      ([.accept], true)
    else
      (.accept :: .spawn :: (listen rest).1, (listen rest).2)

/-- An observed run of the coroutine `proxy`: the operations started by
`transfer(client, server, deadline)` and by `transfer(server, client, deadline)`,
and whether `watchdog(deadline)` was started. -/
structure ProxyRun where
  client_to_server : List RelayOp
  server_to_client : List RelayOp
  watchdog_started : Bool
deriving DecidableEq

/-- The coroutine `proxy` of `episode1/step_5.cpp` (lines 51-65), given the
completion `e` of the connect and what the environment answers to each relay
direction; the operations a `transfer` starts do not depend on the deadline,
which starts at the epoch. -/
def proxy (e : Bool) (data₁ data₂ : Bytes) (script₁ script₂ : List Iteration) : ProxyRun :=
  if !e then
    ⟨(transfer data₁ 0 script₁).ops, (transfer data₂ 0 script₂).ops, true⟩
  else
    ⟨[], [], false⟩

end coroutine

namespace callback

/-- The function `listen` of `episode2/step_0.cpp` (lines 126-141) and
`step_4.cpp` (lines 208-223), given the error flags of the accept completions
in order: each handler creates a proxy when there is no error and then calls
`listen` again. -/
def listen : List Bool → List ListenAction
  | [] => [.accept]
  | error :: rest =>
    if !error then
      .accept :: .spawn :: listen rest
    else
      .accept :: listen rest

end callback

/-- Number of times the body of `stop` was executed according to a log. -/
def closes : List Action → Nat
  | [] => 0
  | .close :: log => closes log + 1
  | _ :: log => closes log

namespace episode1_step_7

/-- What the environment answers during one iteration of the relay loop of
`episode1/step_7.cpp`.  `read`: `none` when `timeout(5s)` finished first,
otherwise the completion of `async_read_some` (`none` when `e1` is set).
`write`: `none` when `timeout(1s)` finished first, otherwise whether `e2` is
set. -/
structure Iteration where
  read : Option (Option Bytes)
  write : Option Bool
deriving DecidableEq

/-- The coroutine `transfer` of `episode1/step_7.cpp` (lines 27-57).  Returns
the operations started in order and whether the loop was left. -/
def transfer (data : Bytes) : List Iteration → List RelayOp × Bool
  | [] => ([], false)
  | it :: rest =>
    match it.read with
    | none => ([.read], true)
    | some none => ([.read], true)
    | some (some chunk) =>
      match it.write with
      | none => ([.read, .write (buffer (read_some data chunk).1 (read_some data chunk).2)], true)
      | some e2 =>
        if e2 then
          ([.read, .write (buffer (read_some data chunk).1 (read_some data chunk).2)], true)
        else
          (.read :: .write (buffer (read_some data chunk).1 (read_some data chunk).2)
              :: (transfer (read_some data chunk).1 rest).1,
            (transfer (read_some data chunk).1 rest).2)

end episode1_step_7

/-- The bytes of the data chunks among stream events, concatenated: what the
underlying reads append to the message buffer when they consume the events. -/
def appended : List ReadEvent → Bytes
  | [] => []
  | .data chunk :: rest => chunk ++ appended rest
  | _ :: rest => appended rest

/-- An observed sequence of `read_message` calls on one reader: the strings
returned in call order, the buffer afterwards and the stream events not
consumed. -/
structure Calls where
  messages : List Bytes
  message_buffer_ : Bytes
  rest : List ReadEvent
deriving DecidableEq

/-- At most `k` successive calls of a `read_message` on one reader, whatever
each returns; the sequence ends early when a call stays suspended in its
read. -/
def calls (read_message : Bytes → List ReadEvent → ReadMessage) :
    Nat → Bytes → List ReadEvent → Calls
  | 0, message_buffer_, stream => ⟨[], message_buffer_, stream⟩
  | k + 1, message_buffer_, stream =>
    match read_message message_buffer_ stream with
    | .pending buffer => ⟨[], buffer, []⟩
    | .returned message _ buffer rest =>
      ⟨message :: (calls read_message k buffer rest).messages,
        (calls read_message k buffer rest).message_buffer_,
        (calls read_message k buffer rest).rest⟩

/-! ## What the specification expects on the wire and on the sockets -/

/-- The decimal numeral of `n`, most significant digit first, from the digits
of `n` in base 10. -/
def decimal (n : Nat) : Bytes :=
  if n = 0 then ['0'] else (Nat.digits 10 n).reverse.map Nat.digitChar

/-- The bytes of the heartbeat frame with counter `k`, written out: the text
`<heartbeat `, a NUL byte, the decimal numeral of `k`, the text `>\r\n`
(carriage return, line feed) and a NUL byte. -/
def counted_frame (k : Nat) : Bytes :=
  ['<', 'h', 'e', 'a', 'r', 't', 'b', 'e', 'a', 't', ' ', Char.ofNat 0] ++ decimal k
    ++ ['>', Char.ofNat 13, Char.ofNat 10, Char.ofNat 0]

/-- The operations of relay iterations that succeed, written out: for each,
the read and then the write of the bytes that read returned (at most 1024 of
what was available). -/
def relayed : List Iteration → List RelayOp
  | [] => []
  | it :: rest =>
    match it.read with
    | none => relayed rest
    | some chunk => .read :: .write (chunk.take 1024) :: relayed rest

/-- The operations of iterations of the relay loop of `episode1/step_7.cpp`
that succeed, written out in the same way. -/
def timed_relayed : List episode1_step_7.Iteration → List RelayOp
  | [] => []
  | it :: rest =>
    match it.read with
    | some (some chunk) => .read :: .write (chunk.take 1024) :: timed_relayed rest
    | _ => timed_relayed rest

/-! ## Lemmas on the framer -/

theorem find_eq_none {c : Char} {l : Bytes} : find c l = none ↔ c ∉ l := by
  induction l with
  | nil => simp [find]
  | cons x xs ih =>
    by_cases h : x = c
    · simp [find, h]
    · have h' : ¬ c = x := fun e => h e.symm
      simp [find, h, h', ih]

theorem find_eq_some {c : Char} {l : Bytes} {i : Nat} (h : find c l = some i) :
    l.take (i + 1) = before c l ++ [c] ∧ i < l.length := by
  induction l generalizing i with
  | nil => simp [find] at h
  | cons x xs ih =>
    by_cases hx : x = c
    · simp [find, hx] at h
      subst h
      simp [hx, before]
    · simp [find, hx] at h
      obtain ⟨j, hj, rfl⟩ := h
      have := ih hj
      simp [hx, this, before]

theorem find_append {c : Char} {l : Bytes} {i : Nat} (h : find c l = some i) (r : Bytes) :
    find c (l ++ r) = some i := by
  induction l generalizing i with
  | nil => simp [find] at h
  | cons x xs ih =>
    by_cases hx : x = c
    · simpa [find, hx] using h
    · simp [find, hx] at h
      obtain ⟨j, hj, rfl⟩ := h
      simp [find, hx, ih hj]

theorem before_append_of_mem {c : Char} {l : Bytes} (h : c ∈ l) (r : Bytes) :
    before c (l ++ r) = before c l := by
  induction l with
  | nil => simp at h
  | cons x xs ih =>
    by_cases hx : x = c
    · simp [hx, before]
    · have hc : c ∈ xs := by
        rcases List.mem_cons.mp h with e | e
        · exact absurd e.symm hx
        · exact e
      simp [hx, ih hc, before]

theorem before_append_of_not_mem {c : Char} {l : Bytes} (h : c ∉ l) (r : Bytes) :
    before c (l ++ r) = l ++ before c r := by
  induction l with
  | nil => simp
  | cons x xs ih =>
    have hx : ¬ x = c := fun e => h (by simp [e])
    have hc : c ∉ xs := fun e => h (List.mem_cons_of_mem _ e)
    simp [hx, ih hc, before]

theorem not_mem_before (c : Char) (l : Bytes) : c ∉ before c l := by
  induction l with
  | nil => simp [before]
  | cons x xs ih =>
    by_cases hx : x = c
    · simp [hx, before]
    · have h' : ¬ c = x := fun e => hx e.symm
      simp [hx, before, ih, h']

/-- On a stream that only delivers non-empty chunks and in which the delimiter
eventually appears, `async_read_until` completes without error, having
consumed a prefix of the chunks, with `n` one past the first delimiter. -/
theorem async_read_until_data (chunks : List Bytes) :
    ∀ buf : Bytes, (∀ c ∈ chunks, c ≠ []) → delim ∈ buf ++ chunks.flatten →
      ∃ i consumed remaining, chunks = consumed ++ remaining ∧
        find delim (buf ++ consumed.flatten) = some i ∧
        async_read_until buf (chunks.map .data)
          = .done false (i + 1) false (buf ++ consumed.flatten) (remaining.map .data) := by
  induction chunks with
  | nil =>
    intro buf _ hd
    simp only [List.flatten_nil, List.append_nil] at hd
    cases hf : find delim buf with
    | none => exact absurd hd (find_eq_none.mp hf)
    | some i => exact ⟨i, [], [], rfl, by simpa using hf, by simp [async_read_until, hf]⟩
  | cons c cs ih =>
    intro buf hne hd
    cases hf : find delim buf with
    | some i =>
      exact ⟨i, [], c :: cs, rfl, by simpa using hf, by simp [async_read_until, hf]⟩
    | none =>
      have hc : c ≠ [] := hne c (List.mem_cons_self _ _)
      have hd' : delim ∈ (buf ++ c) ++ cs.flatten := by simpa using hd
      obtain ⟨i, consumed, remaining, h1, h2, h3⟩ :=
        ih (buf ++ c) (fun x hx => hne x (List.mem_cons_of_mem _ hx)) hd'
      refine ⟨i, c :: consumed, remaining, by simp [h1], by simpa using h2, ?_⟩
      simp [async_read_until, hf, hc, h3]


/-- A read that receives non-empty chunks without a delimiter in sight keeps
reading: the chunks are appended to the buffer and the operation goes on with
the rest of the stream. -/
theorem async_read_until_append (chunks : List Bytes) :
    ∀ (buf : Bytes) (rest : List ReadEvent), (∀ c ∈ chunks, c ≠ []) →
      delim ∉ buf ++ chunks.flatten →
      async_read_until buf (chunks.map .data ++ rest)
        = async_read_until (buf ++ chunks.flatten) rest := by
  induction chunks with
  | nil => intro buf rest _ _; simp
  | cons c cs ih =>
    intro buf rest hne hnd
    have hc : c ≠ [] := hne c (List.mem_cons_self _ _)
    have hb : find delim buf = none := find_eq_none.mpr (fun h => hnd (by simp [h]))
    have hnd' : delim ∉ (buf ++ c) ++ cs.flatten := by simpa using hnd
    have := ih (buf ++ c) rest (fun x hx => hne x (List.mem_cons_of_mem _ hx)) hnd'
    simp [async_read_until, hb, hc, this]

/-- With a delimiter ahead in a stream of non-empty chunks, both variants of
`read_message` return the bytes through the first delimiter. -/
theorem read_message_of_delim
    (message_buffer_ : Bytes) (chunks : List Bytes)
    (hne : ∀ c ∈ chunks, c ≠ []) (hd : delim ∈ message_buffer_ ++ chunks.flatten) :
    ∃ consumed remaining buffer,
      chunks = consumed ++ remaining ∧
      step_7.read_message message_buffer_ (chunks.map .data)
        = .returned (before delim (message_buffer_ ++ chunks.flatten) ++ [delim]) false
            buffer (remaining.map .data) ∧
      step_8.read_message message_buffer_ (chunks.map .data)
        = .returned (before delim (message_buffer_ ++ chunks.flatten) ++ [delim]) false
            buffer (remaining.map .data) ∧
      before delim (message_buffer_ ++ chunks.flatten) ++ [delim] ++ buffer
        = message_buffer_ ++ consumed.flatten ∧
      delim ∉ before delim (message_buffer_ ++ chunks.flatten) := by
  obtain ⟨i, consumed, remaining, h1, h2, h3⟩ :=
    async_read_until_data chunks message_buffer_ hne hd
  obtain ⟨h4, _⟩ := find_eq_some h2
  have hmem : delim ∈ message_buffer_ ++ consumed.flatten := by
    by_contra hn
    rw [find_eq_none.mpr hn] at h2
    exact Option.noConfusion h2
  have h5 : before delim (message_buffer_ ++ chunks.flatten)
      = before delim (message_buffer_ ++ consumed.flatten) := by
    rw [h1, List.flatten_append, ← List.append_assoc]
    exact before_append_of_mem hmem _
  refine ⟨consumed, remaining, (message_buffer_ ++ consumed.flatten).drop (i + 1), h1, ?_, ?_,
    ?_, not_mem_before _ _⟩
  · simp only [step_7.read_message, h3, step_7.read_message_tail]
    simp [h4, h5]
  · simp only [step_8.read_message, h3, step_8.read_message_tail]
    simp [h4, h5]
  · rw [h5, ← h4]
    exact List.take_append_drop _ _

theorem frames_of_find_none (l : Bytes) :
    ∀ cur : Bytes, find delim l = none → frames cur l = ([], cur ++ l) := by
  induction l with
  | nil => intro cur _; simp [frames]
  | cons x xs ih =>
    intro cur h
    by_cases hx : x = delim
    · simp [find, hx] at h
    · simp [find, hx] at h
      simp [frames, hx, ih (cur ++ [x]) h]

theorem frames_of_find_some (l : Bytes) :
    ∀ (cur : Bytes) (i : Nat), find delim l = some i →
      frames cur l = ((cur ++ l.take (i + 1)) :: (frames [] (l.drop (i + 1))).1,
        (frames [] (l.drop (i + 1))).2) := by
  induction l with
  | nil => intro cur i h; simp [find] at h
  | cons x xs ih =>
    intro cur i h
    by_cases hx : x = delim
    · simp [find, hx] at h
      subst h
      simp [frames, hx]
    · simp [find, hx] at h
      obtain ⟨j, hj, rfl⟩ := h
      simp [frames, hx, ih (cur ++ [x]) j hj]

/-- With the stream exhausted, the session of `step_7.cpp` delivers the frames
of the buffer and stays suspended with the pending rest, given enough fuel. -/
theorem step_7.session_nil (fuel : Nat) :
    ∀ buf : Bytes, buf.length < fuel →
      step_7.session fuel buf []
        = some ⟨(frames [] buf).1.map .received, (frames [] buf).2, false⟩ := by
  induction fuel with
  | zero => intro buf h; exact absurd h (Nat.not_lt_zero _)
  | succ fuel ih =>
    intro buf h
    cases hf : find delim buf with
    | none =>
      simp [step_7.session, step_7.read_message, async_read_until, hf,
        frames_of_find_none buf [] hf]
    | some i =>
      obtain ⟨h1, h2⟩ := find_eq_some hf
      have hlen : (buf.drop (i + 1)).length < fuel := by
        simp only [List.length_drop]; omega
      have hm : buf.take (i + 1) ≠ [] := by
        rw [h1]; simp
      simp [step_7.session, step_7.read_message, async_read_until, hf,
        step_7.read_message_tail, hm, ih _ hlen, frames_of_find_some buf [] i hf,
        SessionRun.push]

/-- A non-empty chunk delivered to the session of `step_7.cpp` has the effect
of the same bytes already being in the buffer. -/
theorem step_7.session_data (fuel : Nat) :
    ∀ (buf c : Bytes) (rest : List ReadEvent), c ≠ [] →
      step_7.session fuel buf (.data c :: rest) = step_7.session fuel (buf ++ c) rest := by
  induction fuel with
  | zero => intro buf c rest _; rfl
  | succ fuel ih =>
    intro buf c rest hc
    cases hf : find delim buf with
    | none =>
      simp [step_7.session, step_7.read_message, async_read_until, hf, hc]
    | some i =>
      obtain ⟨h1, h2⟩ := find_eq_some hf
      have hf' := find_append hf c
      have hm : buf.take (i + 1) ≠ [] := by
        rw [h1]; simp
      have ht : (buf ++ c).take (i + 1) = buf.take (i + 1) := by
        rw [List.take_append_of_le_length (by omega)]
      have hd : (buf ++ c).drop (i + 1) = buf.drop (i + 1) ++ c := by
        rw [List.drop_append_of_le_length (by omega)]
      have e1 : step_7.read_message buf (.data c :: rest)
          = .returned (buf.take (i + 1)) false (buf.drop (i + 1)) (.data c :: rest) := by
        simp [step_7.read_message, async_read_until, hf, step_7.read_message_tail]
      have e2 : step_7.read_message (buf ++ c) rest
          = .returned (buf.take (i + 1)) false (buf.drop (i + 1) ++ c) rest := by
        cases rest <;>
          simp [step_7.read_message, async_read_until, hf', step_7.read_message_tail, ht, hd]
      simp only [step_7.session, e1, e2, ih _ c rest hc, if_pos hm]

theorem step_7.session_chunks (fuel : Nat) (chunks : List Bytes) :
    ∀ buf : Bytes, (∀ c ∈ chunks, c ≠ []) →
      step_7.session fuel buf (chunks.map .data) = step_7.session fuel (buf ++ chunks.flatten) [] := by
  induction chunks with
  | nil => intro buf _; simp
  | cons c cs ih =>
    intro buf hne
    have hc : c ≠ [] := hne c (List.mem_cons_self _ _)
    simp only [List.map_cons, List.flatten_cons, ← List.append_assoc]
    rw [step_7.session_data fuel buf c _ hc,
      ih (buf ++ c) (fun x hx => hne x (List.mem_cons_of_mem _ hx))]

/-- With the stream exhausted, the session of `step_8.cpp` delivers the frames
of the buffer and stays suspended with the pending rest, given enough fuel. -/
theorem step_8.timed_session_nil (fuel : Nat) :
    ∀ buf : Bytes, buf.length < fuel →
      step_8.session fuel buf []
        = some ⟨(frames [] buf).1.map .received, (frames [] buf).2, false⟩ := by
  induction fuel with
  | zero => intro buf h; exact absurd h (Nat.not_lt_zero _)
  | succ fuel ih =>
    intro buf h
    cases hf : find delim buf with
    | none =>
      simp [step_8.session, step_8.read_message, async_read_until, hf,
        frames_of_find_none buf [] hf]
    | some i =>
      obtain ⟨h1, h2⟩ := find_eq_some hf
      have hlen : (buf.drop (i + 1)).length < fuel := by
        simp only [List.length_drop]; omega
      have hm : buf.take (i + 1) ≠ [] := by
        rw [h1]; simp
      simp [step_8.session, step_8.read_message, async_read_until, hf,
        step_8.read_message_tail, hm, ih _ hlen, frames_of_find_some buf [] i hf,
        SessionRun.push]

/-- A non-empty chunk delivered to the session of `step_8.cpp` has the effect
of the same bytes already being in the buffer. -/
theorem step_8.timed_session_data (fuel : Nat) :
    ∀ (buf c : Bytes) (rest : List ReadEvent), c ≠ [] →
      step_8.session fuel buf (.data c :: rest) = step_8.session fuel (buf ++ c) rest := by
  induction fuel with
  | zero => intro buf c rest _; rfl
  | succ fuel ih =>
    intro buf c rest hc
    cases hf : find delim buf with
    | none =>
      simp [step_8.session, step_8.read_message, async_read_until, hf, hc]
    | some i =>
      obtain ⟨h1, h2⟩ := find_eq_some hf
      have hf' := find_append hf c
      have hm : buf.take (i + 1) ≠ [] := by
        rw [h1]; simp
      have ht : (buf ++ c).take (i + 1) = buf.take (i + 1) := by
        rw [List.take_append_of_le_length (by omega)]
      have hd : (buf ++ c).drop (i + 1) = buf.drop (i + 1) ++ c := by
        rw [List.drop_append_of_le_length (by omega)]
      have e1 : step_8.read_message buf (.data c :: rest)
          = .returned (buf.take (i + 1)) false (buf.drop (i + 1)) (.data c :: rest) := by
        simp [step_8.read_message, async_read_until, hf, step_8.read_message_tail]
      have e2 : step_8.read_message (buf ++ c) rest
          = .returned (buf.take (i + 1)) false (buf.drop (i + 1) ++ c) rest := by
        cases rest <;>
          simp [step_8.read_message, async_read_until, hf', step_8.read_message_tail, ht, hd]
      simp [step_8.session, e1, e2, ih _ c rest hc, hm]

theorem step_8.timed_session_chunks (fuel : Nat) (chunks : List Bytes) :
    ∀ buf : Bytes, (∀ c ∈ chunks, c ≠ []) →
      step_8.session fuel buf (chunks.map .data) = step_8.session fuel (buf ++ chunks.flatten) [] := by
  induction chunks with
  | nil => intro buf _; simp
  | cons c cs ih =>
    intro buf hne
    have hc : c ≠ [] := hne c (List.mem_cons_self _ _)
    simp only [List.map_cons, List.flatten_cons, ← List.append_assoc]
    rw [step_8.timed_session_data fuel buf c _ hc,
      ih (buf ++ c) (fun x hx => hne x (List.mem_cons_of_mem _ hx))]

/-! ## The claims on the framer -/

/-- C1 (as amended): for every buffer content and every stream of non-empty
chunks in which the delimiter eventually appears, `read_message` (both
variants) returns, and what it returns is the bytes that precede the first
delimiter followed by the delimiter itself; the message and the buffer left
behind are together exactly the old buffer plus the chunks consumed. -/
theorem C1_read_message_returns_through_first_delimiter
    (message_buffer_ : Bytes) (chunks : List Bytes)
    (hne : ∀ c ∈ chunks, c ≠ []) (hd : delim ∈ message_buffer_ ++ chunks.flatten) :
    ∃ consumed remaining buffer,
      chunks = consumed ++ remaining ∧
      step_7.read_message message_buffer_ (chunks.map .data)
        = .returned (before delim (message_buffer_ ++ chunks.flatten) ++ [delim]) false
            buffer (remaining.map .data) ∧
      step_8.read_message message_buffer_ (chunks.map .data)
        = .returned (before delim (message_buffer_ ++ chunks.flatten) ++ [delim]) false
            buffer (remaining.map .data) ∧
      before delim (message_buffer_ ++ chunks.flatten) ++ [delim] ++ buffer
        = message_buffer_ ++ consumed.flatten ∧
      delim ∉ before delim (message_buffer_ ++ chunks.flatten) :=
  read_message_of_delim message_buffer_ chunks hne hd

/-- Witness of C1: the buffer holds `a`, the stream delivers `b|c` and then `d`. -/
theorem C1_read_message_returns_through_first_delimiter_witness :
    ∃ consumed remaining buffer,
      ["b|c".toList, "d".toList] = consumed ++ remaining ∧
      step_7.read_message "a".toList (["b|c".toList, "d".toList].map .data)
        = .returned (before delim ("a".toList ++ ["b|c".toList, "d".toList].flatten) ++ [delim])
            false buffer (remaining.map .data) ∧
      step_8.read_message "a".toList (["b|c".toList, "d".toList].map .data)
        = .returned (before delim ("a".toList ++ ["b|c".toList, "d".toList].flatten) ++ [delim])
            false buffer (remaining.map .data) ∧
      before delim ("a".toList ++ ["b|c".toList, "d".toList].flatten) ++ [delim] ++ buffer
        = "a".toList ++ consumed.flatten ∧
      delim ∉ before delim ("a".toList ++ ["b|c".toList, "d".toList].flatten) :=
  C1_read_message_returns_through_first_delimiter "a".toList ["b|c".toList, "d".toList]
    (by decide) (by decide)

/-- C1 as stated fails: with an empty buffer and the stream delivering `ab|`,
the message returned by `read_message` is `ab|`, which contains the delimiter. -/
theorem C1_counterexample_message_contains_delimiter :
    step_7.read_message [] [.data "ab|".toList] = .returned "ab|".toList false [] [] ∧
    step_8.read_message [] [.data "ab|".toList] = .returned "ab|".toList false [] [] ∧
    delim ∈ "ab|".toList := by
  decide

/-- C3 (as amended): a `read_message` call of `step_8.cpp` that finds
cancellation requested returns the empty string and leaves the buffer as the
read left it, whatever the read reported; when the call started with buffer
`b` and received the non-empty chunks `chunks` without a delimiter before it
was cancelled, the buffer afterwards is `b` followed by those bytes, and the
next call, receiving chunks that contain a delimiter, returns a message that
begins with `b` followed by those bytes. -/
theorem C3_cancelled_read_keeps_buffer
    (b : Bytes) (chunks later : List Bytes)
    (hne : ∀ c ∈ chunks, c ≠ []) (hnd : delim ∉ b ++ chunks.flatten)
    (hne' : ∀ c ∈ later, c ≠ []) (hd : delim ∈ later.flatten) :
    (∀ (e : Bool) (n : Nat) (buffer : Bytes),
      step_8.read_message_tail true e n buffer = ([], buffer)) ∧
    step_8.read_message b (chunks.map .data ++ .cancel :: later.map .data)
      = .returned [] true (b ++ chunks.flatten) (later.map .data) ∧
    ∃ message buffer rest,
      step_8.read_message (b ++ chunks.flatten) (later.map .data)
        = .returned message false buffer rest ∧
      b ++ chunks.flatten <+: message := by
  refine ⟨fun e n buffer => by simp [step_8.read_message_tail], ?_, ?_⟩
  · have hb : find delim (b ++ chunks.flatten) = none := find_eq_none.mpr hnd
    simp [step_8.read_message, async_read_until_append chunks b _ hne hnd, async_read_until,
      hb, step_8.read_message_tail]
  · obtain ⟨consumed, remaining, buffer, _, _, h8, _, _⟩ :=
      read_message_of_delim (b ++ chunks.flatten) later hne' (by simp [hd])
    refine ⟨_, _, _, h8, ?_⟩
    rw [before_append_of_not_mem hnd, List.append_assoc]
    exact List.prefix_append _ _

/-- Witness of C3: the buffer holds `x`, the cancelled call receives `gh`, the
next call receives `i|`. -/
theorem C3_cancelled_read_keeps_buffer_witness :
    (∀ (e : Bool) (n : Nat) (buffer : Bytes),
      step_8.read_message_tail true e n buffer = ([], buffer)) ∧
    step_8.read_message "x".toList
        (["gh".toList].map .data ++ .cancel :: ["i|".toList].map .data)
      = .returned [] true ("x".toList ++ ["gh".toList].flatten) (["i|".toList].map .data) ∧
    ∃ message buffer rest,
      step_8.read_message ("x".toList ++ ["gh".toList].flatten) (["i|".toList].map .data)
        = .returned message false buffer rest ∧
      "x".toList ++ ["gh".toList].flatten <+: message :=
  C3_cancelled_read_keeps_buffer "x".toList ["gh".toList] ["i|".toList]
    (by decide) (by decide) (by decide) (by decide)

/-- C3 as stated fails in its last part: with `x` in the buffer, a cancelled
call that received `gh` leaves `xgh`, and the next call, receiving `i|`,
returns `xghi|`, which does not begin with `gh`. -/
theorem C3_counterexample_message_begins_with_old_buffer :
    step_8.read_message "x".toList [.data "gh".toList, .cancel, .data "i|".toList]
      = .returned [] true "xgh".toList [.data "i|".toList] ∧
    step_8.read_message "xgh".toList [.data "i|".toList]
      = .returned "xghi|".toList false [] [] ∧
    ¬ ("gh".toList <+: "xghi|".toList) := by
  decide

/-- C4: for every byte sequence `s` and every two ways of splitting it into
non-empty chunks, the session (both variants), given enough fuel, prints the
same messages and leaves the same buffer: the frames of `s` in order and the
pending rest of `s`, with the session suspended in the next read.  For
`ab|cd|ef` these are the two segments `ab|` and `cd|`, and `ef` stays in the
buffer. -/
theorem C4_messages_independent_of_chunking
    (s : Bytes) (chunks₁ chunks₂ : List Bytes) (fuel : Nat)
    (h₁ : ∀ c ∈ chunks₁, c ≠ []) (h₂ : ∀ c ∈ chunks₂, c ≠ [])
    (e₁ : chunks₁.flatten = s) (e₂ : chunks₂.flatten = s) (hfuel : s.length < fuel) :
    step_7.session fuel [] (chunks₁.map .data)
      = some ⟨(frames [] s).1.map .received, (frames [] s).2, false⟩ ∧
    step_7.session fuel [] (chunks₂.map .data)
      = some ⟨(frames [] s).1.map .received, (frames [] s).2, false⟩ ∧
    step_8.session fuel [] (chunks₁.map .data)
      = some ⟨(frames [] s).1.map .received, (frames [] s).2, false⟩ ∧
    step_8.session fuel [] (chunks₂.map .data)
      = some ⟨(frames [] s).1.map .received, (frames [] s).2, false⟩ ∧
    frames [] "ab|cd|ef".toList = (["ab|".toList, "cd|".toList], "ef".toList) := by
  refine ⟨?_, ?_, ?_, ?_, by decide⟩
  · rw [step_7.session_chunks fuel chunks₁ [] h₁, List.nil_append, e₁]
    exact step_7.session_nil fuel s hfuel
  · rw [step_7.session_chunks fuel chunks₂ [] h₂, List.nil_append, e₂]
    exact step_7.session_nil fuel s hfuel
  · rw [step_8.timed_session_chunks fuel chunks₁ [] h₁, List.nil_append, e₁]
    exact step_8.timed_session_nil fuel s hfuel
  · rw [step_8.timed_session_chunks fuel chunks₂ [] h₂, List.nil_append, e₂]
    exact step_8.timed_session_nil fuel s hfuel

/-- Witness of C4: `ab|cd|ef` delivered as `a`, `b|cd|e`, `f` and as `ab|c`,
`d|ef`. -/
theorem C4_messages_independent_of_chunking_witness :
    step_7.session 9 [] (["a".toList, "b|cd|e".toList, "f".toList].map .data)
      = some ⟨(frames [] "ab|cd|ef".toList).1.map .received,
          (frames [] "ab|cd|ef".toList).2, false⟩ ∧
    step_7.session 9 [] (["ab|c".toList, "d|ef".toList].map .data)
      = some ⟨(frames [] "ab|cd|ef".toList).1.map .received,
          (frames [] "ab|cd|ef".toList).2, false⟩ ∧
    step_8.session 9 [] (["a".toList, "b|cd|e".toList, "f".toList].map .data)
      = some ⟨(frames [] "ab|cd|ef".toList).1.map .received,
          (frames [] "ab|cd|ef".toList).2, false⟩ ∧
    step_8.session 9 [] (["ab|c".toList, "d|ef".toList].map .data)
      = some ⟨(frames [] "ab|cd|ef".toList).1.map .received,
          (frames [] "ab|cd|ef".toList).2, false⟩ ∧
    frames [] "ab|cd|ef".toList = (["ab|".toList, "cd|".toList], "ef".toList) :=
  C4_messages_independent_of_chunking "ab|cd|ef".toList
    ["a".toList, "b|cd|e".toList, "f".toList] ["ab|c".toList, "d|ef".toList] 9
    (by decide) (by decide) (by decide) (by decide) (by decide)

/-- C5: when the read of `read_message` fails, the call returns the empty
string and leaves the buffer as the read left it, for every buffer content
(both variants); on a stream that delivers non-empty chunks without a
delimiter and then fails, the call returns the empty string and the buffer
keeps the old content followed by the bytes received: nothing is erased and
the undelimited bytes are not delivered. -/
theorem C5_failed_read_returns_empty
    (b : Bytes) (chunks : List Bytes) (rest : List ReadEvent)
    (hne : ∀ c ∈ chunks, c ≠ []) (hnd : delim ∉ b ++ chunks.flatten) :
    (∀ (n : Nat) (buffer : Bytes), step_7.read_message_tail true n buffer = ([], buffer)) ∧
    (∀ (cancelled : Bool) (n : Nat) (buffer : Bytes),
      step_8.read_message_tail cancelled true n buffer = ([], buffer)) ∧
    step_7.read_message b (chunks.map .data ++ .error :: rest)
      = .returned [] false (b ++ chunks.flatten) rest ∧
    step_8.read_message b (chunks.map .data ++ .error :: rest)
      = .returned [] false (b ++ chunks.flatten) rest := by
  have hb : find delim (b ++ chunks.flatten) = none := find_eq_none.mpr hnd
  refine ⟨fun n buffer => by simp [step_7.read_message_tail],
    fun cancelled n buffer => by cases cancelled <;> simp [step_8.read_message_tail], ?_, ?_⟩
  · simp [step_7.read_message, async_read_until_append chunks b _ hne hnd, async_read_until,
      hb, step_7.read_message_tail]
  · simp [step_8.read_message, async_read_until_append chunks b _ hne hnd, async_read_until,
      hb, step_8.read_message_tail]

/-- Witness of C5: `ef` is in the buffer when the stream reports EOF. -/
theorem C5_failed_read_returns_empty_witness :
    (∀ (n : Nat) (buffer : Bytes), step_7.read_message_tail true n buffer = ([], buffer)) ∧
    (∀ (cancelled : Bool) (n : Nat) (buffer : Bytes),
      step_8.read_message_tail cancelled true n buffer = ([], buffer)) ∧
    step_7.read_message "ef".toList (([] : List Bytes).map .data ++ .error :: [])
      = .returned [] false ("ef".toList ++ ([] : List Bytes).flatten) [] ∧
    step_8.read_message "ef".toList (([] : List Bytes).map .data ++ .error :: [])
      = .returned [] false ("ef".toList ++ ([] : List Bytes).flatten) [] :=
  C5_failed_read_returns_empty "ef".toList [] [] (by decide) (by decide)

/-- C6: after a successful read with count `n` (and, in `step_8.cpp`, no
cancellation requested), `read_message` returns the first `n` bytes of the
buffer `b` and leaves the buffer without them: the new buffer is `b` with its
first `n` bytes dropped, its length is `|b| - n`, and message and new buffer
together are `b`; this is what a `read_message` call returns and leaves whenever
its read completes without error with count `n` and buffer `b`. -/
theorem C6_buffer_trimmed_by_n (b : Bytes) (n : Nat) :
    (step_7.read_message_tail false n b).2 = b.drop n ∧
    (step_8.read_message_tail false false n b).2 = b.drop n ∧
    (step_7.read_message_tail false n b).1 = b.take n ∧
    (step_8.read_message_tail false false n b).1 = b.take n ∧
    (step_7.read_message_tail false n b).2.length = b.length - n ∧
    (step_8.read_message_tail false false n b).2.length = b.length - n ∧
    (step_7.read_message_tail false n b).1 ++ (step_7.read_message_tail false n b).2 = b ∧
    (step_8.read_message_tail false false n b).1
      ++ (step_8.read_message_tail false false n b).2 = b ∧
    (∀ (message_buffer_ : Bytes) (stream rest : List ReadEvent),
      async_read_until message_buffer_ stream = .done false n false b rest →
        step_7.read_message message_buffer_ stream
          = .returned (b.take n) false (b.drop n) rest ∧
        step_8.read_message message_buffer_ stream
          = .returned (b.take n) false (b.drop n) rest) := by
  refine ⟨?_, ?_, ?_, ?_, ?_, ?_, ?_, ?_, ?_⟩
  · simp [step_7.read_message_tail]
  · simp [step_8.read_message_tail]
  · simp [step_7.read_message_tail]
  · simp [step_8.read_message_tail]
  · simp [step_7.read_message_tail]
  · simp [step_8.read_message_tail]
  · simp [step_7.read_message_tail]
  · simp [step_8.read_message_tail]
  · intro message_buffer_ stream rest h
    simp [step_7.read_message, step_8.read_message, h, step_7.read_message_tail,
      step_8.read_message_tail]

/-! ## Lemmas on the relay and the proxy -/

theorem buffer_read_some (data chunk : Bytes) :
    buffer (read_some data chunk).1 (read_some data chunk).2 = chunk.take data_size := by
  simp [buffer, read_some]

theorem buffer_buffer_copy (target source : Bytes) :
    buffer (buffer_copy target source).1 (buffer_copy target source).2
      = source.take data_size := by
  simp [buffer, buffer_copy]

theorem to_string_length {n : Nat} (h : n < size_modulus) : (to_string n).length ≤ 20 := by
  have h' : n < 10 ^ 20 := lt_trans h (by norm_num [size_modulus])
  exact Nat.toDigitsCore_length 10 (by norm_num) (n + 1) n 20 h' (by norm_num)

theorem heartbeat_frame_fits {n : Nat} (h : n < size_modulus) :
    (heartbeat_frame n).take data_size = heartbeat_frame n := by
  apply List.take_of_length_le
  have := to_string_length h
  simp only [heartbeat_frame, heartbeat_open, heartbeat_close, List.length_append, data_size]
  simp
  omega

theorem client_writes_append (l₁ l₂ : List Action) :
    client_writes (l₁ ++ l₂) = client_writes l₁ ++ client_writes l₂ := by
  induction l₁ with
  | nil => rfl
  | cons a l ih => cases a <;> simp [client_writes, ih]

theorem server_writes_append (l₁ l₂ : List Action) :
    server_writes (l₁ ++ l₂) = server_writes l₁ ++ server_writes l₂ := by
  induction l₁ with
  | nil => rfl
  | cons a l ih => cases a <;> simp [server_writes, ih]

theorem proxy.run_append (evs₁ evs₂ : List Event) :
    ∀ p : proxy, proxy.run p (evs₁ ++ evs₂) = proxy.run (proxy.run p evs₁) evs₂ := by
  induction evs₁ with
  | nil => intro p; rfl
  | cons ev evs ih => intro p; simp [proxy.run, ih]

/-- One heartbeat cycle: the timer wins the race, the frame with the next
counter is written to the client, and the completed write starts the next
race. -/
theorem proxy.timer_cycle (p : proxy) (hr : p.server_chain = .reading)
    (hk : p.num_heartbeats_ + 1 < size_modulus) :
    (proxy.step (proxy.step p (.server_completed .timer)) (.client_written false)).server_chain
      = .reading ∧
    (proxy.step (proxy.step p (.server_completed .timer)) (.client_written false)).num_heartbeats_
      = p.num_heartbeats_ + 1 ∧
    client_writes
        (proxy.step (proxy.step p (.server_completed .timer)) (.client_written false)).log
      = client_writes p.log ++ [heartbeat_frame (p.num_heartbeats_ + 1)] := by
  have hfit := heartbeat_frame_fits hk
  simp [proxy.step, hr, proxy.on_server_completed, proxy.write_heartbeat_to_client,
    proxy.write_to_client, proxy.on_client_written, proxy.read_from_server,
    Nat.mod_eq_of_lt hk, buffer_buffer_copy, hfit, client_writes_append, client_writes]

theorem proxy.run_timer_wins (n : Nat) :
    ∀ p : proxy, p.server_chain = .reading → p.num_heartbeats_ + n < size_modulus →
      (proxy.run p (timer_wins n)).server_chain = .reading ∧
      (proxy.run p (timer_wins n)).num_heartbeats_ = p.num_heartbeats_ + n ∧
      client_writes (proxy.run p (timer_wins n)).log
        = client_writes p.log ++ (List.range' (p.num_heartbeats_ + 1) n).map heartbeat_frame := by
  induction n with
  | zero => intro p hr _; simp [timer_wins, proxy.run, hr]
  | succ n ih =>
    intro p hr hk
    obtain ⟨h1, h2, h3⟩ := proxy.timer_cycle p hr (by omega)
    obtain ⟨i1, i2, i3⟩ := ih _ h1 (by rw [h2]; omega)
    simp only [timer_wins, proxy.run]
    refine ⟨i1, by rw [i2, h2]; omega, ?_⟩
    rw [i3, h3, h2]
    simp [List.range'_succ]

/-- A successful upstream read resets the counter and forwards the bytes. -/
theorem proxy.read_wins (p : proxy) (d : Bytes) (hr : p.server_chain = .reading)
    (hd : d.length ≤ data_size) :
    (proxy.step p (.server_completed (.read (some d)))).num_heartbeats_ = 0 ∧
    (proxy.step (proxy.step p (.server_completed (.read (some d))))
      (.client_written false)).num_heartbeats_ = 0 ∧
    (proxy.step (proxy.step p (.server_completed (.read (some d))))
      (.client_written false)).server_chain = .reading ∧
    client_writes (proxy.step p (.server_completed (.read (some d)))).log
      = client_writes p.log ++ [d] ∧
    client_writes (proxy.step (proxy.step p (.server_completed (.read (some d))))
      (.client_written false)).log = client_writes p.log ++ [d] := by
  have ht : d.take data_size = d := List.take_of_length_le hd
  simp [proxy.step, hr, proxy.on_server_completed, proxy.write_to_client,
    proxy.on_client_written, proxy.read_from_server, buffer_read_some, ht,
    client_writes_append, client_writes]

theorem le_refresh_deadline (deadline now : Int) : deadline ≤ refresh_deadline deadline now :=
  le_max_left _ _

theorem transfer_deadline (script : List Iteration) :
    ∀ (data : Bytes) (deadline : Int), deadline ≤ (transfer data deadline script).deadline := by
  induction script with
  | nil => intro data deadline; simp [transfer]
  | cons it rest ih =>
    intro data deadline
    have h := le_refresh_deadline deadline it.now
    cases hr : it.read with
    | none => simpa [transfer, hr] using h
    | some chunk =>
      cases he : it.e2 with
      | true => simpa [transfer, hr, he] using h
      | false =>
        simp only [transfer, hr, he]
        exact le_trans h (ih _ _)

theorem proxy.step_deadline (p : proxy) (ev : Event) :
    p.deadline_ ≤ (proxy.step p ev).deadline_ := by
  cases ev with
  | connected error now =>
    cases error <;>
      by_cases h : p.connecting <;>
      simp [proxy.step, h, proxy.on_connected, proxy.watchdog, proxy.read_from_server,
        proxy.read_from_client]
  | client_read r =>
    cases r <;>
      by_cases h : p.client_chain = .reading <;>
      simp [proxy.step, h, proxy.on_client_read, proxy.write_to_server, proxy.stop]
  | server_written error now =>
    cases error <;>
      by_cases h : p.client_chain = .writing <;>
      simp [proxy.step, h, proxy.on_server_written, proxy.read_from_client, proxy.stop]
  | server_completed c =>
    by_cases h : p.server_chain = .reading
    · rcases c with (_ | chunk) | _ <;>
        simp [proxy.step, h, proxy.on_server_completed, proxy.write_to_client,
          proxy.write_heartbeat_to_client, proxy.stop]
    · simp [proxy.step, h]
  | client_written error =>
    cases error <;>
      by_cases h : p.server_chain = .writing <;>
      simp [proxy.step, h, proxy.on_client_written, proxy.read_from_server, proxy.stop]
  | watchdog_timer now =>
    by_cases h : p.watchdog_waiting
    · by_cases h1 : p.client_open <;> by_cases h2 : p.server_open <;>
        by_cases h3 : p.deadline_ > now <;>
        simp [proxy.step, h, proxy.on_watchdog_timer, proxy.is_stopped, proxy.watchdog,
          proxy.stop, h1, h2, h3]
    · simp [proxy.step, h]

theorem proxy.run_deadline (evs : List Event) :
    ∀ p : proxy, p.deadline_ ≤ (proxy.run p evs).deadline_ := by
  induction evs with
  | nil => intro p; exact le_refl _
  | cons ev evs ih => intro p; exact le_trans (proxy.step_deadline p ev) (ih _)

theorem writes_transfer (script : List Iteration) :
    ∀ (data : Bytes) (deadline : Int),
      (∀ it ∈ script, ∀ chunk, it.read = some chunk → chunk.length ≤ data_size) →
      (∀ it ∈ script, it.e2 = false) →
      writes (transfer data deadline script).ops = chunks_before_failure script := by
  induction script with
  | nil => intro data deadline _ _; simp [transfer, writes, chunks_before_failure]
  | cons it rest ih =>
    intro data deadline hsize hwrite
    have he : it.e2 = false := hwrite it (List.mem_cons_self _ _)
    cases hr : it.read with
    | none => simp [transfer, hr, writes, chunks_before_failure]
    | some chunk =>
      have hc : chunk.take data_size = chunk :=
        List.take_of_length_le (hsize it (List.mem_cons_self _ _) chunk hr)
      have := ih (read_some data chunk).1 (refresh_deadline deadline it.now)
        (fun x hx => hsize x (List.mem_cons_of_mem _ hx))
        (fun x hx => hwrite x (List.mem_cons_of_mem _ hx))
      simp [transfer, hr, he, writes, chunks_before_failure, buffer_read_some, hc, this]

/-- Once the client-to-server chain has no handler outstanding, no completion
of that chain starts anything. -/
theorem proxy.run_relay_completions_idle (script : List Iteration) :
    ∀ p : proxy, p.client_chain = .idle →
      proxy.run p (relay_completions script) = p := by
  induction script with
  | nil => intro p _; rfl
  | cons it rest ih =>
    intro p hp
    cases hr : it.read with
    | none => simp [relay_completions, hr, proxy.run, proxy.step, hp, ih p hp]
    | some chunk => simp [relay_completions, hr, proxy.run, proxy.step, hp, ih p hp]

theorem proxy.run_relay_completions (script : List Iteration) :
    ∀ p : proxy, p.client_chain = .reading →
      (∀ it ∈ script, ∀ chunk, it.read = some chunk → chunk.length ≤ data_size) →
      (∀ it ∈ script, it.e2 = false) →
      server_writes (proxy.run p (relay_completions script)).log
        = server_writes p.log ++ chunks_before_failure script := by
  induction script with
  | nil => intro p _ _ _; simp [relay_completions, proxy.run, chunks_before_failure]
  | cons it rest ih =>
    intro p hp hsize hwrite
    have he : it.e2 = false := hwrite it (List.mem_cons_self _ _)
    cases hr : it.read with
    | none =>
      have hidle : (proxy.step p (.client_read none)).client_chain = .idle := by
        simp [proxy.step, hp, proxy.on_client_read, proxy.stop]
      simp only [relay_completions, hr, proxy.run, chunks_before_failure]
      rw [proxy.run_relay_completions_idle rest _ hidle]
      simp [proxy.step, hp, proxy.on_client_read, proxy.stop, server_writes_append,
        server_writes]
    | some chunk =>
      have hc : chunk.take data_size = chunk :=
        List.take_of_length_le (hsize it (List.mem_cons_self _ _) chunk hr)
      have hnext : (proxy.step (proxy.step p (.client_read (some chunk)))
          (.server_written false it.now)).client_chain = .reading := by
        simp [proxy.step, hp, proxy.on_client_read, proxy.write_to_server,
          proxy.on_server_written, proxy.read_from_client]
      have hlog : server_writes (proxy.step (proxy.step p (.client_read (some chunk)))
          (.server_written false it.now)).log = server_writes p.log ++ [chunk] := by
        simp [proxy.step, hp, proxy.on_client_read, proxy.write_to_server,
          proxy.on_server_written, proxy.read_from_client, buffer_read_some, hc,
          server_writes_append, server_writes]
      simp only [relay_completions, hr, he, proxy.run, chunks_before_failure]
      rw [ih _ hnext (fun x hx => hsize x (List.mem_cons_of_mem _ hx))
        (fun x hx => hwrite x (List.mem_cons_of_mem _ hx)), hlog]
      simp

theorem client_to_server_eq (data : Bytes) (script : List Iteration) (state : proxy_state) :
    (client_to_server data script state).2 = (transfer data state.deadline script).ops ∧
    (client_to_server data script state).1.deadline
      = (transfer data state.deadline script).deadline := by
  cases h : (transfer data state.deadline script).returned <;> simp [client_to_server, h]

theorem server_to_client_eq (data : Bytes) (script : List Iteration) (state : proxy_state) :
    (server_to_client data script state).2 = (transfer data state.deadline script).ops ∧
    (server_to_client data script state).1.deadline
      = (transfer data state.deadline script).deadline := by
  cases h : (transfer data state.deadline script).returned <;> simp [server_to_client, h]

theorem toDigitsCore_eq_digits (fuel : Nat) :
    ∀ (n : Nat) (ds : List Char), n < fuel → 0 < n →
      Nat.toDigitsCore 10 fuel n ds
        = (Nat.digits 10 n).reverse.map Nat.digitChar ++ ds := by
  induction fuel with
  | zero => intro n ds h _; exact absurd h (Nat.not_lt_zero _)
  | succ fuel ih =>
    intro n ds h hn
    rw [Nat.digits_def' (by norm_num) hn]
    simp only [Nat.toDigitsCore]
    by_cases h0 : n / 10 = 0
    · simp [h0]
    · have hpos : 0 < n / 10 := Nat.pos_of_ne_zero h0
      have hlt : n / 10 < fuel := by omega
      simp [h0, ih (n / 10) _ hlt hpos]

/-- The digits `std::to_string` produces are the decimal numeral. -/
theorem to_string_eq_decimal (n : Nat) : to_string n = decimal n := by
  by_cases h : n = 0
  · subst h
    decide
  · have hpos : 0 < n := Nat.pos_of_ne_zero h
    simp only [to_string, decimal, h, if_false, Nat.toDigits]
    rw [toDigitsCore_eq_digits (n + 1) n [] (Nat.lt_succ_self n) hpos, List.append_nil]

theorem heartbeat_frame_eq_counted (k : Nat) : heartbeat_frame k = counted_frame k := by
  have h1 : heartbeat_open
      = ['<', 'h', 'e', 'a', 'r', 't', 'b', 'e', 'a', 't', ' ', Char.ofNat 0] := by decide
  have h2 : heartbeat_close = ['>', Char.ofNat 13, Char.ofNat 10, Char.ofNat 0] := by decide
  rw [heartbeat_frame, counted_frame, to_string_eq_decimal, h1, h2]

/-! ## The claims on the heartbeat, the relay and the deadline -/

/-- C2 (the code at `num_heartbeats_ = 1`): `write_heartbeat_to_client` passes
`n = 17` to `write_to_client` and the bytes written are `<heartbeat `, a NUL,
`1`, `>\r\n` and a NUL, not the 15 bytes of `<heartbeat 1>\r\n`: each of the two
string literals is copied with its terminating NUL. -/
theorem C2_heartbeat_frame_at_one (p : proxy) :
    (buffer_copy p.data_from_server_ (heartbeat_frame 1)).2 = 17 ∧
    (proxy.write_heartbeat_to_client { p with num_heartbeats_ := 1 }).log
      = p.log ++ [.client_write ("<heartbeat ".toList ++ [Char.ofNat 0] ++ "1".toList
          ++ ">\r\n".toList ++ [Char.ofNat 0])] ∧
    "<heartbeat ".toList ++ [Char.ofNat 0] ++ "1".toList ++ ">\r\n".toList ++ [Char.ofNat 0]
      ≠ "<heartbeat 1>\r\n".toList ∧
    "<heartbeat 1>\r\n".toList.length = 11 + 1 + 3 := by
  have hf : heartbeat_frame 1 = "<heartbeat ".toList ++ [Char.ofNat 0] ++ "1".toList
      ++ ">\r\n".toList ++ [Char.ofNat 0] := by decide
  have hfit : (heartbeat_frame 1).take data_size = heartbeat_frame 1 :=
    heartbeat_frame_fits (by norm_num [size_modulus])
  refine ⟨?_, ?_, by decide, by decide⟩
  · simp only [buffer_copy, hfit]
    decide
  · simp only [proxy.write_heartbeat_to_client, proxy.write_to_client, buffer_buffer_copy, hfit]
    rw [hf]

/-- C7: with the race of `read_from_server` outstanding and the counter at 0,
after `N` consecutive timer wins (each heartbeat write completing) followed by
a successful upstream read of `d`, the writes toward the client are the
heartbeat frames with counters 1, 2, ..., `N` in that order, the frame with
counter `k` carrying the decimal numeral of `k` between `<heartbeat ` and
`>\r\n` (each followed by a NUL byte), and then `d`; `num_heartbeats_` is 0
after the read; and the next timer win, after the write of `d` has completed,
writes the frame with counter 1.  `N` is a value of the `std::size_t` counter
and `d` fits the 1024-byte array it was read into. -/
theorem C7_heartbeat_counter_sequence (p : proxy) (N : Nat) (d : Bytes)
    (hr : p.server_chain = .reading) (h0 : p.num_heartbeats_ = 0)
    (hN : N < size_modulus) (hd : d.length ≤ data_size) :
    client_writes (proxy.run p (timer_wins N ++ [.server_completed (.read (some d))])).log
      = client_writes p.log ++ (List.range' 1 N).map counted_frame ++ [d] ∧
    (proxy.run p (timer_wins N ++ [.server_completed (.read (some d))])).num_heartbeats_ = 0 ∧
    client_writes (proxy.run p (timer_wins N ++ [.server_completed (.read (some d)),
        .client_written false, .server_completed .timer, .client_written false])).log
      = client_writes p.log ++ (List.range' 1 N).map counted_frame ++ [d]
          ++ [counted_frame 1] := by
  obtain ⟨h1, _, h3⟩ := proxy.run_timer_wins N p hr (by rw [h0]; omega)
  obtain ⟨r1, r2, r3, r4, r5⟩ := proxy.read_wins (proxy.run p (timer_wins N)) d h1 hd
  obtain ⟨_, _, t3⟩ := proxy.timer_cycle _ r3 (by rw [r2]; norm_num [size_modulus])
  have hfun : heartbeat_frame = counted_frame := funext heartbeat_frame_eq_counted
  rw [h0] at h3
  simp only [Nat.zero_add] at h3
  rw [hfun] at h3 t3
  refine ⟨?_, ?_, ?_⟩
  · rw [proxy.run_append]
    simp only [proxy.run]
    rw [r4, h3]
  · rw [proxy.run_append]
    simpa only [proxy.run] using r1
  · rw [proxy.run_append]
    simp only [proxy.run]
    rw [t3, r5, h3, r2]

/-- Witness of C7: a freshly connected proxy, two timer wins, then the
upstream delivers `data`; the frames written carry the numerals `1` and `2`. -/
theorem C7_heartbeat_counter_sequence_witness :
    (client_writes (proxy.run
        (proxy.run (proxy.connect_to_server (proxy.make [] [])) [.connected false 0])
        (timer_wins 2 ++ [.server_completed (.read (some "data".toList))])).log
      = client_writes
          (proxy.run (proxy.connect_to_server (proxy.make [] [])) [.connected false 0]).log
        ++ (List.range' 1 2).map counted_frame ++ ["data".toList] ∧
    (proxy.run
        (proxy.run (proxy.connect_to_server (proxy.make [] [])) [.connected false 0])
        (timer_wins 2 ++ [.server_completed (.read (some "data".toList))])).num_heartbeats_
      = 0 ∧
    client_writes (proxy.run
        (proxy.run (proxy.connect_to_server (proxy.make [] [])) [.connected false 0])
        (timer_wins 2 ++ [.server_completed (.read (some "data".toList)),
          .client_written false, .server_completed .timer, .client_written false])).log
      = client_writes
          (proxy.run (proxy.connect_to_server (proxy.make [] [])) [.connected false 0]).log
        ++ (List.range' 1 2).map counted_frame ++ ["data".toList] ++ [counted_frame 1]) ∧
    (List.range' 1 2).map counted_frame
      = [['<', 'h', 'e', 'a', 'r', 't', 'b', 'e', 'a', 't', ' ', Char.ofNat 0, '1',
            '>', Char.ofNat 13, Char.ofNat 10, Char.ofNat 0],
          ['<', 'h', 'e', 'a', 'r', 't', 'b', 'e', 'a', 't', ' ', Char.ofNat 0, '2',
            '>', Char.ofNat 13, Char.ofNat 10, Char.ofNat 0]] ∧
    client_writes (proxy.run (proxy.connect_to_server (proxy.make [] []))
        ([.connected false 0] ++ timer_wins 2
          ++ [.server_completed (.read (some "data".toList))])).log
      = [['<', 'h', 'e', 'a', 'r', 't', 'b', 'e', 'a', 't', ' ', Char.ofNat 0, '1',
            '>', Char.ofNat 13, Char.ofNat 10, Char.ofNat 0],
          ['<', 'h', 'e', 'a', 'r', 't', 'b', 'e', 'a', 't', ' ', Char.ofNat 0, '2',
            '>', Char.ofNat 13, Char.ofNat 10, Char.ofNat 0],
          ['d', 'a', 't', 'a']] :=
  ⟨C7_heartbeat_counter_sequence
      (proxy.run (proxy.connect_to_server (proxy.make [] [])) [.connected false 0])
      2 "data".toList (by decide) (by decide) (by norm_num [size_modulus]) (by decide),
    by
      simp only [counted_frame, decimal, List.range', List.map]
      norm_num
      decide,
    by decide⟩

/-- C8: when every successful read of the script delivers at most 1024 bytes
and every write succeeds, the writes of one relay direction are, one for one
and in order, the chunks returned by the successful reads that precede the
first failed read, so the bytes written are their concatenation: for the
coroutine `transfer`, for `client_to_server` and `server_to_client`, and for
the `read_from_client` / `write_to_server` chain of the callback proxy. -/
theorem C8_relay_writes_what_it_reads
    (data : Bytes) (deadline : Int) (state : proxy_state) (p : proxy) (script : List Iteration)
    (hsize : ∀ it ∈ script, ∀ chunk, it.read = some chunk → chunk.length ≤ data_size)
    (hwrite : ∀ it ∈ script, it.e2 = false)
    (hp : p.client_chain = .reading) :
    writes (transfer data deadline script).ops = chunks_before_failure script ∧
    (writes (transfer data deadline script).ops).flatten
      = (chunks_before_failure script).flatten ∧
    writes (client_to_server data script state).2 = chunks_before_failure script ∧
    writes (server_to_client data script state).2 = chunks_before_failure script ∧
    server_writes (proxy.run p (relay_completions script)).log
      = server_writes p.log ++ chunks_before_failure script := by
  have h := writes_transfer script data deadline hsize hwrite
  have h' := writes_transfer script data state.deadline hsize hwrite
  refine ⟨h, by rw [h], ?_, ?_, proxy.run_relay_completions script p hp hsize hwrite⟩
  · rw [(client_to_server_eq data script state).1]
    exact h'
  · rw [(server_to_client_eq data script state).1]
    exact h'

/-- Witness of C8: the source delivers `GET `, then `/`, then fails, and a
further chunk after the failure is never read. -/
theorem C8_relay_writes_what_it_reads_witness :
    writes (transfer [] 0
        [⟨1, some "GET ".toList, false⟩, ⟨2, some "/".toList, false⟩, ⟨3, none, false⟩,
          ⟨4, some "x".toList, false⟩]).ops
      = chunks_before_failure
        [⟨1, some "GET ".toList, false⟩, ⟨2, some "/".toList, false⟩, ⟨3, none, false⟩,
          ⟨4, some "x".toList, false⟩] ∧
    (writes (transfer [] 0
        [⟨1, some "GET ".toList, false⟩, ⟨2, some "/".toList, false⟩, ⟨3, none, false⟩,
          ⟨4, some "x".toList, false⟩]).ops).flatten
      = (chunks_before_failure
        [⟨1, some "GET ".toList, false⟩, ⟨2, some "/".toList, false⟩, ⟨3, none, false⟩,
          ⟨4, some "x".toList, false⟩]).flatten ∧
    writes (client_to_server [] [⟨1, some "GET ".toList, false⟩, ⟨2, some "/".toList, false⟩,
        ⟨3, none, false⟩, ⟨4, some "x".toList, false⟩] ⟨true, true, 0⟩).2
      = chunks_before_failure
        [⟨1, some "GET ".toList, false⟩, ⟨2, some "/".toList, false⟩, ⟨3, none, false⟩,
          ⟨4, some "x".toList, false⟩] ∧
    writes (server_to_client [] [⟨1, some "GET ".toList, false⟩, ⟨2, some "/".toList, false⟩,
        ⟨3, none, false⟩, ⟨4, some "x".toList, false⟩] ⟨true, true, 0⟩).2
      = chunks_before_failure
        [⟨1, some "GET ".toList, false⟩, ⟨2, some "/".toList, false⟩, ⟨3, none, false⟩,
          ⟨4, some "x".toList, false⟩] ∧
    server_writes (proxy.run
        (proxy.run (proxy.connect_to_server (proxy.make [] [])) [.connected false 0])
        (relay_completions
          [⟨1, some "GET ".toList, false⟩, ⟨2, some "/".toList, false⟩, ⟨3, none, false⟩,
            ⟨4, some "x".toList, false⟩])).log
      = server_writes
          (proxy.run (proxy.connect_to_server (proxy.make [] [])) [.connected false 0]).log
        ++ chunks_before_failure
          [⟨1, some "GET ".toList, false⟩, ⟨2, some "/".toList, false⟩, ⟨3, none, false⟩,
            ⟨4, some "x".toList, false⟩] :=
  C8_relay_writes_what_it_reads [] 0 ⟨true, true, 0⟩
    (proxy.run (proxy.connect_to_server (proxy.make [] [])) [.connected false 0])
    [⟨1, some "GET ".toList, false⟩, ⟨2, some "/".toList, false⟩, ⟨3, none, false⟩,
      ⟨4, some "x".toList, false⟩]
    (by decide) (by decide) (by decide)

/-- C9: no operation rewinds the shared deadline.  The refresh statement at
the top of the relay loop leaves it at least as late as before, so a run of
`transfer`, of `client_to_server` or of `server_to_client` ends with a deadline
at least as late as it started with; `read_from_client` of the callback proxy
does the same, and so does every run of the callback proxy, whatever
completions arrive in whatever order; the watchdog, coroutine or callback,
leaves the deadline as it is. -/
theorem C9_deadline_never_rewound :
    (∀ deadline now : Int, deadline ≤ refresh_deadline deadline now) ∧
    (∀ (data : Bytes) (deadline : Int) (script : List Iteration),
      deadline ≤ (transfer data deadline script).deadline) ∧
    (∀ (data : Bytes) (script : List Iteration) (state : proxy_state),
      state.deadline ≤ (client_to_server data script state).1.deadline ∧
      state.deadline ≤ (server_to_client data script state).1.deadline) ∧
    (∀ (now : Int) (state : proxy_state), (watchdog now state).1.deadline = state.deadline) ∧
    (∀ (now : Int) (p : proxy), p.deadline_ ≤ (proxy.read_from_client now p).deadline_) ∧
    (∀ (p : proxy) (evs : List Event), p.deadline_ ≤ (proxy.run p evs).deadline_) ∧
    (∀ (now : Int) (p : proxy), (proxy.on_watchdog_timer now p).deadline_ = p.deadline_) := by
  refine ⟨le_refresh_deadline, fun data deadline script => transfer_deadline script data deadline,
    ?_, ?_, ?_, fun p evs => proxy.run_deadline evs p, ?_⟩
  · intro data script state
    have h := transfer_deadline script data state.deadline
    constructor
    · rw [(client_to_server_eq data script state).2]
      exact h
    · rw [(server_to_client_eq data script state).2]
      exact h
  · intro now state
    unfold watchdog
    split <;> rfl
  · intro now p
    simp [proxy.read_from_client]
  · intro now p
    unfold proxy.on_watchdog_timer
    split
    · split <;> rfl
    · rfl

/-- C10 (as amended): in the callback proxy each start of a client read
(`read_from_client`) leaves `deadline_` at least the current time plus 5
seconds; the start of an upstream read (`read_from_server`) and the handlers
of the server-to-client chain leave `deadline_` unchanged. -/
theorem C10_only_client_reads_refresh_deadline (now : Int) (p : proxy) :
    now + seconds 5 ≤ (proxy.read_from_client now p).deadline_ ∧
    (proxy.read_from_server p).deadline_ = p.deadline_ ∧
    (∀ c : ServerCompletion, (proxy.on_server_completed c p).deadline_ = p.deadline_) ∧
    (∀ error : Bool, (proxy.on_client_written error p).deadline_ = p.deadline_) := by
  refine ⟨by simp [proxy.read_from_client], rfl, ?_, ?_⟩
  · intro c
    rcases c with (_ | chunk) | _ <;> rfl
  · intro error
    cases error <;> rfl

/-- C10 as stated fails: a proxy connects at time 0 (deadline 5 s); the
upstream then sends `x` and later `y`, each forwarded to the client, and every
restart of the upstream read leaves the deadline at 5 s, which is earlier than
3 s + 5 s for a restart at 3 s; when the watchdog timer fires at 5 s the
connection is stopped although server-to-client traffic was flowing. -/
theorem C10_counterexample_server_traffic_expires :
    (proxy.run (proxy.connect_to_server (proxy.make [] []))
      [.connected false 0, .server_completed (.read (some "x".toList)),
        .client_written false]).server_chain = .reading ∧
    (proxy.run (proxy.connect_to_server (proxy.make [] []))
      [.connected false 0, .server_completed (.read (some "x".toList)),
        .client_written false]).deadline_ < seconds 3 + seconds 5 ∧
    proxy.is_stopped (proxy.run (proxy.connect_to_server (proxy.make [] []))
      [.connected false 0, .server_completed (.read (some "x".toList)),
        .client_written false, .server_completed (.read (some "y".toList)),
        .client_written false, .watchdog_timer (seconds 5)]) = true ∧
    client_writes (proxy.run (proxy.connect_to_server (proxy.make [] []))
      [.connected false 0, .server_completed (.read (some "x".toList)),
        .client_written false, .server_completed (.read (some "y".toList)),
        .client_written false, .watchdog_timer (seconds 5)]).log
      = ["x".toList, "y".toList] := by
  decide

/-! ## The claims on the watchdog, the cancellation filter and the listeners -/

theorem watchdog_run_eq_spec (wakes : List Wake) :
    ∀ (state : proxy_state) (now : Int),
      (watchdog_run state now wakes).waits = rewaits (checks state now wakes) ∧
      (watchdog_run state now wakes).expired = expires (checks state now wakes) := by
  induction wakes with
  | nil =>
    intro state now
    by_cases h : state.deadline > now <;>
      simp [watchdog_run, watchdog, checks, rewaits, expires, h]
  | cons w rest ih =>
    intro state now
    by_cases h : state.deadline > now
    · have := ih { state with deadline := w.refreshes.foldl refresh_deadline state.deadline } w.now
      simp [watchdog_run, watchdog, checks, rewaits, expires, h, this]
    · simp [watchdog_run, watchdog, checks, rewaits, expires, h]

theorem expires_iff (cs : List (Int × Int)) :
    expires cs = true ↔ ∃ c ∈ cs, c.1 ≤ c.2 := by
  induction cs with
  | nil => simp [expires]
  | cons c rest ih =>
    obtain ⟨deadline, now⟩ := c
    by_cases h : deadline > now
    · have h' : ¬ deadline ≤ now := not_le.mpr h
      simp [expires, h, h', ih]
    · have h' : deadline ≤ now := not_lt.mp h
      simp [expires, h, h']

/-- C11: at every check, at entry or on waking, the watchdog waits again with
the timer set to the current value of the shared deadline exactly when that
deadline is strictly later than the current time, and otherwise leaves its
loop and closes the connection.  Across its wake-ups the coroutine watchdog
waits at the checks that precede the first check where the current time has
reached the deadline, and it expires if and only if there is such a check.
The handler of the callback watchdog, on a connection that is not stopped,
calls `watchdog` again (timer at `deadline_`) when `deadline_` is later than
the current time and `stop` otherwise. -/
theorem C11_watchdog_rewaits_or_expires :
    (∀ (now : Int) (state : proxy_state),
      (now < state.deadline → watchdog now state = (state, some state.deadline)) ∧
      (state.deadline ≤ now → watchdog now state
        = ({ state with client_open := false, server_open := false }, none))) ∧
    (∀ (state : proxy_state) (now : Int) (wakes : List Wake),
      (watchdog_run state now wakes).waits = rewaits (checks state now wakes) ∧
      ((watchdog_run state now wakes).expired = true
        ↔ ∃ c ∈ checks state now wakes, c.1 ≤ c.2)) ∧
    (∀ (now : Int) (p : proxy), proxy.is_stopped p = false →
      (now < p.deadline_ → proxy.on_watchdog_timer now p = proxy.watchdog p) ∧
      (p.deadline_ ≤ now → proxy.on_watchdog_timer now p = proxy.stop p)) ∧
    (∀ p : proxy, (proxy.watchdog p).log = p.log ++ [.watchdog_wait p.deadline_]) := by
  refine ⟨?_, ?_, ?_, fun p => rfl⟩
  · intro now state
    constructor
    · intro h
      simp [watchdog, h]
    · intro h
      have h' : ¬ state.deadline > now := not_lt.mpr h
      simp [watchdog, h']
  · intro state now wakes
    obtain ⟨h1, h2⟩ := watchdog_run_eq_spec wakes state now
    exact ⟨h1, by rw [h2]; exact expires_iff _⟩
  · intro now p hs
    constructor
    · intro h
      simp [proxy.on_watchdog_timer, hs, h]
    · intro h
      have h' : ¬ p.deadline_ > now := not_lt.mpr h
      simp [proxy.on_watchdog_timer, hs, h']

/-- C12: the cancellation filter of `read_message` maps every requested type
that includes `total` to exactly `partial` and returns every other requested
type unchanged; the result never contains the `total` bit, and filtering twice
is filtering once. -/
theorem C12_cancellation_filter (requested : Nat) :
    (requested &&& cancellation_type.total ≠ cancellation_type.none →
      cancellation_filter requested = cancellation_type.partial_) ∧
    (requested &&& cancellation_type.total = cancellation_type.none →
      cancellation_filter requested = requested) ∧
    cancellation_filter requested &&& cancellation_type.total = cancellation_type.none ∧
    cancellation_filter (cancellation_filter requested) = cancellation_filter requested := by
  have h2 : cancellation_type.partial_ &&& cancellation_type.total = cancellation_type.none := by
    decide
  by_cases h : requested &&& cancellation_type.total = cancellation_type.none
  · simp [cancellation_filter, h]
  · simp [cancellation_filter, h, h2]

theorem coroutine.listen_after_error (k : Nat) (rest : List Bool) :
    coroutine.listen (List.replicate k false ++ true :: rest)
      = coroutine.listen (List.replicate k false ++ [true]) ∧
    (coroutine.listen (List.replicate k false ++ true :: rest)).2 = true ∧
    (coroutine.listen (List.replicate k false ++ true :: rest)).1
      = (List.replicate k [ListenAction.accept, ListenAction.spawn]).flatten ++ [.accept] := by
  induction k with
  | zero => simp [coroutine.listen]
  | succ k ih =>
    obtain ⟨h1, h2, h3⟩ := ih
    have hc : ∀ l : List Bool, coroutine.listen (false :: l)
        = (.accept :: .spawn :: (coroutine.listen l).1, (coroutine.listen l).2) := by
      intro l
      simp [coroutine.listen]
    rw [List.replicate_succ, List.cons_append, List.cons_append, hc, hc, h1]
    rw [h1] at h2 h3
    simp [h2, h3, List.replicate_succ]

/-- C13 (as amended): in the coroutine `listen`, after `k` successful accepts
and one failed accept, the loop is left: whatever the acceptor would deliver
next is never asked for, the actions are `k` times accept and spawn followed
by the one failed accept, and nothing is spawned for it.  In the callback
`listen`, a failed accept spawns no proxy, and its handler issues the next
accept. -/
theorem C13_accept_failure (k : Nat) (rest : List Bool) :
    coroutine.listen (List.replicate k false ++ true :: rest)
      = coroutine.listen (List.replicate k false ++ [true]) ∧
    (coroutine.listen (List.replicate k false ++ true :: rest)).2 = true ∧
    (coroutine.listen (List.replicate k false ++ true :: rest)).1
      = (List.replicate k [ListenAction.accept, ListenAction.spawn]).flatten ++ [.accept] ∧
    callback.listen (true :: rest) = .accept :: callback.listen rest ∧
    callback.listen (false :: rest) = .accept :: .spawn :: callback.listen rest :=
  ⟨(coroutine.listen_after_error k rest).1, (coroutine.listen_after_error k rest).2.1,
    (coroutine.listen_after_error k rest).2.2, by simp [callback.listen],
    by simp [callback.listen]⟩

/-- C13 as stated fails for the callback `listen`: when the first accept fails
and the second succeeds, a second accept is issued after the failure, a proxy
is spawned for it and a third accept is issued; the coroutine `listen` stops
after the failed accept. -/
theorem C13_counterexample_callback_listen_accepts_again :
    callback.listen [true, false] = [.accept, .accept, .spawn, .accept] ∧
    coroutine.listen [true, false] = ([.accept], true) := by
  decide

/-- A proxy with no completion handler outstanding is not changed by any
completion. -/
theorem proxy.step_inert (p : proxy) (ev : Event) (h1 : p.connecting = false)
    (h2 : p.client_chain = .idle) (h3 : p.server_chain = .idle)
    (h4 : p.watchdog_waiting = false) : proxy.step p ev = p := by
  cases ev <;> simp [proxy.step, h1, h2, h3, h4]

theorem proxy.run_inert (evs : List Event) :
    ∀ p : proxy, p.connecting = false → p.client_chain = .idle → p.server_chain = .idle →
      p.watchdog_waiting = false → proxy.run p evs = p := by
  induction evs with
  | nil => intro p _ _ _ _; rfl
  | cons ev evs ih =>
    intro p h1 h2 h3 h4
    simp only [proxy.run, proxy.step_inert p ev h1 h2 h3 h4]
    exact ih p h1 h2 h3 h4

/-- C14: when the connect completes with an error the session starts nothing.
The coroutine `proxy` starts neither relay direction nor the watchdog and no
operation on either socket.  In the callback proxy the handler of the connect
does nothing, so whatever completions are delivered afterwards, the log holds
the connect alone: no read on the client socket, no write to either socket, no
watchdog wait, and no handler is outstanding. -/
theorem C14_connect_failure_starts_nothing
    (data₁ data₂ : Bytes) (script₁ script₂ : List Iteration) (now : Int) (evs : List Event) :
    coroutine.proxy true data₁ data₂ script₁ script₂ = ⟨[], [], false⟩ ∧
    proxy.run (proxy.connect_to_server (proxy.make data₁ data₂)) (.connected true now :: evs)
      = { proxy.connect_to_server (proxy.make data₁ data₂) with connecting := false } ∧
    (proxy.run (proxy.connect_to_server (proxy.make data₁ data₂))
      (.connected true now :: evs)).log = [.connect] := by
  have h : proxy.run (proxy.connect_to_server (proxy.make data₁ data₂))
      (.connected true now :: evs)
      = { proxy.connect_to_server (proxy.make data₁ data₂) with connecting := false } := by
    simp only [proxy.run]
    have hs : proxy.step (proxy.connect_to_server (proxy.make data₁ data₂)) (.connected true now)
        = { proxy.connect_to_server (proxy.make data₁ data₂) with connecting := false } := by
      simp [proxy.step, proxy.connect_to_server, proxy.on_connected]
    rw [hs]
    exact proxy.run_inert evs _ rfl rfl rfl rfl
  refine ⟨by simp [coroutine.proxy], h, ?_⟩
  rw [h]
  simp [proxy.connect_to_server, proxy.make]

/-- C15 (as amended): the connect of a session is not bounded by a timeout of
the program.  `connect_to_server` starts the connect and no timer; while the
connect is outstanding no other completion changes the proxy; and when the
connect completes without error, at whatever clock reading `now`, the relay
starts: the client read, the upstream read and the watchdog wait (at the
refreshed deadline) are issued.  The coroutine `proxy` starts both relay
directions and the watchdog whenever the connect completes without error. -/
theorem C15_connect_without_timeout
    (data₁ data₂ : Bytes) (script₁ script₂ : List Iteration) (now : Int) :
    (proxy.connect_to_server (proxy.make data₁ data₂)).log = [.connect] ∧
    (proxy.connect_to_server (proxy.make data₁ data₂)).watchdog_waiting = false ∧
    (∀ ev : Event, (∀ (error : Bool) (t : Int), ev ≠ .connected error t) →
      proxy.step (proxy.connect_to_server (proxy.make data₁ data₂)) ev
        = proxy.connect_to_server (proxy.make data₁ data₂)) ∧
    (proxy.step (proxy.connect_to_server (proxy.make data₁ data₂)) (.connected false now)).log
      = [.connect, .client_read, .server_read, .watchdog_wait (max 0 (now + seconds 5))] ∧
    coroutine.proxy false data₁ data₂ script₁ script₂
      = ⟨(transfer data₁ 0 script₁).ops, (transfer data₂ 0 script₂).ops, true⟩ := by
  refine ⟨rfl, rfl, ?_, ?_, by simp [coroutine.proxy]⟩
  · intro ev hev
    cases ev with
    | connected error t => exact absurd rfl (hev error t)
    | client_read r => simp [proxy.step, proxy.connect_to_server, proxy.make]
    | server_written error t => simp [proxy.step, proxy.connect_to_server, proxy.make]
    | server_completed c => simp [proxy.step, proxy.connect_to_server, proxy.make]
    | client_written error => simp [proxy.step, proxy.connect_to_server, proxy.make]
    | watchdog_timer t => simp [proxy.step, proxy.connect_to_server, proxy.make]
  · simp [proxy.step, proxy.connect_to_server, proxy.make, proxy.on_connected, proxy.watchdog,
      proxy.read_from_server, proxy.read_from_client]

/-- C15 as stated fails: a proxy starts its connect; 5 s and 60 s later nothing
has happened to it, no timer having been set (a watchdog completion has no
handler to run), and the connect is still outstanding; when the connect
completes without error after 100 s the proxy starts relaying. -/
theorem C15_counterexample_late_connect_relays :
    (proxy.run (proxy.connect_to_server (proxy.make [] []))
      [.watchdog_timer (seconds 5), .watchdog_timer (seconds 60)]).connecting = true ∧
    (proxy.run (proxy.connect_to_server (proxy.make [] []))
      [.watchdog_timer (seconds 5), .watchdog_timer (seconds 60)]).log = [.connect] ∧
    (proxy.run (proxy.connect_to_server (proxy.make [] []))
      [.watchdog_timer (seconds 5), .watchdog_timer (seconds 60),
        .connected false (seconds 100)]).log
      = [.connect, .client_read, .server_read, .watchdog_wait (seconds 105)] ∧
    (proxy.run (proxy.connect_to_server (proxy.make [] []))
      [.watchdog_timer (seconds 5), .watchdog_timer (seconds 60),
        .connected false (seconds 100), .client_read (some "hi".toList)]).log
      = [.connect, .client_read, .server_read, .watchdog_wait (seconds 105),
          .server_write "hi".toList] := by
  decide

theorem transfer_cons_ok (data : Bytes) (deadline : Int) (x : Iteration) (l : List Iteration)
    (chunk : Bytes) (hx : x.read = some chunk) (he : x.e2 = false) :
    transfer data deadline (x :: l)
      = ⟨(transfer (read_some data chunk).1 (refresh_deadline deadline x.now) l).deadline,
          .read :: .write (buffer (read_some data chunk).1 (read_some data chunk).2)
            :: (transfer (read_some data chunk).1 (refresh_deadline deadline x.now) l).ops,
          (transfer (read_some data chunk).1 (refresh_deadline deadline x.now) l).returned⟩ := by
  simp [transfer, hx, he]

theorem episode1_step_7.timed_transfer_cons_ok (data : Bytes) (x : episode1_step_7.Iteration)
    (l : List episode1_step_7.Iteration) (chunk : Bytes)
    (hx : x.read = some (some chunk)) (hw : x.write = some false) :
    episode1_step_7.transfer data (x :: l)
      = (.read :: .write (buffer (read_some data chunk).1 (read_some data chunk).2)
            :: (episode1_step_7.transfer (read_some data chunk).1 l).1,
          (episode1_step_7.transfer (read_some data chunk).1 l).2) := by
  simp [episode1_step_7.transfer, hx, hw]

theorem transfer_after_failure (pre : List Iteration) :
    ∀ (data : Bytes) (deadline : Int) (it : Iteration) (rest : List Iteration),
      (∀ x ∈ pre, (∃ chunk, x.read = some chunk) ∧ x.e2 = false) →
      (it.read = none ∨ it.e2 = true) →
      transfer data deadline (pre ++ it :: rest) = transfer data deadline (pre ++ [it]) ∧
      (transfer data deadline (pre ++ [it])).returned = true ∧
      (it.read = none →
        ∃ ops, (transfer data deadline (pre ++ [it])).ops = ops ++ [.read]) := by
  induction pre with
  | nil =>
    intro data deadline it rest _ hfail
    cases hr : it.read with
    | none => simp [transfer, hr]
    | some chunk =>
      have he : it.e2 = true := by
        rcases hfail with h | h
        · rw [hr] at h; exact Option.noConfusion h
        · exact h
      simp [transfer, hr, he]
  | cons x xs ih =>
    intro data deadline it rest hpre hfail
    obtain ⟨⟨chunk, hx⟩, he⟩ := hpre x (List.mem_cons_self _ _)
    obtain ⟨h1, h2, h3⟩ := ih (read_some data chunk).1 (refresh_deadline deadline x.now) it rest
      (fun y hy => hpre y (List.mem_cons_of_mem _ hy)) hfail
    rw [List.cons_append, List.cons_append, transfer_cons_ok data deadline x _ chunk hx he,
      transfer_cons_ok data deadline x _ chunk hx he, h1]
    refine ⟨rfl, h2, ?_⟩
    intro hn
    obtain ⟨ops, hops⟩ := h3 hn
    exact ⟨.read :: .write (buffer (read_some data chunk).1 (read_some data chunk).2)
      :: ops, by simp [hops]⟩

theorem episode1_step_7.timed_transfer_after_failure (pre : List episode1_step_7.Iteration) :
    ∀ (data : Bytes) (it : episode1_step_7.Iteration) (rest : List episode1_step_7.Iteration),
      (∀ x ∈ pre, (∃ chunk, x.read = some (some chunk)) ∧ x.write = some false) →
      ((∀ chunk, it.read ≠ some (some chunk)) ∨ it.write ≠ some false) →
      episode1_step_7.transfer data (pre ++ it :: rest)
        = episode1_step_7.transfer data (pre ++ [it]) ∧
      (episode1_step_7.transfer data (pre ++ [it])).2 = true ∧
      ((∀ chunk, it.read ≠ some (some chunk)) →
        ∃ ops, (episode1_step_7.transfer data (pre ++ [it])).1 = ops ++ [.read]) := by
  induction pre with
  | nil =>
    intro data it rest _ hfail
    rcases hr : it.read with _ | _ | chunk
    · simp [episode1_step_7.transfer, hr]
    · simp [episode1_step_7.transfer, hr]
    · have hw : it.write ≠ some false := by
        rcases hfail with h | h
        · exact absurd hr (h chunk)
        · exact h
      rcases hw' : it.write with _ | e2
      · simp [episode1_step_7.transfer, hr, hw']
      · cases e2 with
        | false => exact absurd hw' hw
        | true => simp [episode1_step_7.transfer, hr, hw']
  | cons x xs ih =>
    intro data it rest hpre hfail
    obtain ⟨⟨chunk, hx⟩, hw⟩ := hpre x (List.mem_cons_self _ _)
    obtain ⟨h1, h2, h3⟩ := ih (read_some data chunk).1 it rest
      (fun y hy => hpre y (List.mem_cons_of_mem _ hy)) hfail
    rw [List.cons_append, List.cons_append,
      episode1_step_7.timed_transfer_cons_ok data x _ chunk hx hw,
      episode1_step_7.timed_transfer_cons_ok data x _ chunk hx hw, h1]
    refine ⟨rfl, h2, ?_⟩
    intro hn
    obtain ⟨ops, hops⟩ := h3 hn
    exact ⟨.read :: .write (buffer (read_some data chunk).1 (read_some data chunk).2)
      :: ops, by simp [hops]⟩

theorem proxy.step_stopped (p : proxy) (ev : Event) (h : proxy.is_stopped p = true) :
    proxy.is_stopped (proxy.step p ev) = true := by
  have hc : p.client_open = false := by
    cases hx : p.client_open <;> simp [proxy.is_stopped, hx] at h ⊢
  have hs : p.server_open = false := by
    cases hx : p.server_open <;> simp [proxy.is_stopped, hx, hc] at h ⊢
  cases ev with
  | connected error now =>
    cases error <;>
      by_cases h0 : p.connecting <;>
      simp [proxy.step, h0, proxy.on_connected, proxy.watchdog, proxy.read_from_server,
        proxy.read_from_client, proxy.is_stopped, hc, hs]
  | client_read r =>
    cases r <;>
      by_cases h0 : p.client_chain = .reading <;>
      simp [proxy.step, h0, proxy.on_client_read, proxy.write_to_server, proxy.stop,
        proxy.is_stopped, hc, hs]
  | server_written error now =>
    cases error <;>
      by_cases h0 : p.client_chain = .writing <;>
      simp [proxy.step, h0, proxy.on_server_written, proxy.read_from_client, proxy.stop,
        proxy.is_stopped, hc, hs]
  | server_completed c =>
    by_cases h0 : p.server_chain = .reading
    · rcases c with (_ | chunk) | _ <;>
        simp [proxy.step, h0, proxy.on_server_completed, proxy.write_to_client,
          proxy.write_heartbeat_to_client, proxy.stop, proxy.is_stopped, hc, hs]
    · simp [proxy.step, h0, proxy.is_stopped, hc, hs]
  | client_written error =>
    cases error <;>
      by_cases h0 : p.server_chain = .writing <;>
      simp [proxy.step, h0, proxy.on_client_written, proxy.read_from_server, proxy.stop,
        proxy.is_stopped, hc, hs]
  | watchdog_timer now =>
    by_cases h0 : p.watchdog_waiting <;>
      simp [proxy.step, h0, proxy.on_watchdog_timer, proxy.is_stopped, hc, hs]

theorem proxy.run_stopped (evs : List Event) :
    ∀ p : proxy, proxy.is_stopped p = true → proxy.is_stopped (proxy.run p evs) = true := by
  induction evs with
  | nil => intro p h; exact h
  | cons ev evs ih => intro p h; exact ih _ (proxy.step_stopped p ev h)

theorem closes_append (l₁ l₂ : List Action) : closes (l₁ ++ l₂) = closes l₁ + closes l₂ := by
  induction l₁ with
  | nil => simp [closes]
  | cons a l ih =>
    cases a <;> simp [closes, ih]
    omega

/-- C16 (as amended): teardown is idempotent rather than single.  In the
callback proxy every terminal event runs `stop`: the handler of a failed
client read, of a failed write to the server, of a failed upstream read, of a
failed write to the client, and the watchdog handler on expiry of a
connection that is not stopped.  Every execution of `stop` closes both sockets
and is counted in the log; executing it again changes nothing but that count;
once the connection is stopped it stays stopped under every later completion,
and the watchdog handler, guarded by `is_stopped`, does not execute it again.
In `episode1/step_3.cpp` a relay direction whose read or write fails closes
both sockets at its end, whatever state they were in, and so does the watchdog
on expiry; a direction still in its loop leaves the sockets as they are; on an
already closed connection the sockets stay closed. -/
theorem C16_teardown_idempotent
    (p : proxy) (evs : List Event) (now : Int) (data : Bytes) (script : List Iteration)
    (deadline : Int) (state : proxy_state) (pre : List Iteration) (it : Iteration)
    (rest : List Iteration)
    (hpre : ∀ x ∈ pre, (∃ chunk, x.read = some chunk) ∧ x.e2 = false)
    (hfail : it.read = none ∨ it.e2 = true) :
    (client_to_server data (pre ++ it :: rest) state).1
      = ⟨false, false, (transfer data state.deadline (pre ++ [it])).deadline⟩ ∧
    (server_to_client data (pre ++ it :: rest) state).1
      = ⟨false, false, (transfer data state.deadline (pre ++ [it])).deadline⟩ ∧
    (state.deadline ≤ now → watchdog now state = (⟨false, false, state.deadline⟩, none)) ∧
    ((transfer data state.deadline script).returned = false →
      (client_to_server data script state).1.client_open = state.client_open ∧
      (client_to_server data script state).1.server_open = state.server_open ∧
      (server_to_client data script state).1.client_open = state.client_open ∧
      (server_to_client data script state).1.server_open = state.server_open) ∧
    (∀ q : proxy, q.client_chain = .reading →
      proxy.step q (.client_read none) = proxy.stop { q with client_chain := .idle }) ∧
    (∀ (q : proxy) (t : Int), q.client_chain = .writing →
      proxy.step q (.server_written true t) = proxy.stop { q with client_chain := .idle }) ∧
    (∀ q : proxy, q.server_chain = .reading →
      proxy.step q (.server_completed (.read none))
        = proxy.stop { q with server_chain := .idle }) ∧
    (∀ q : proxy, q.server_chain = .writing →
      proxy.step q (.client_written true) = proxy.stop { q with server_chain := .idle }) ∧
    (∀ (q : proxy) (t : Int), q.watchdog_waiting = true → proxy.is_stopped q = false →
      q.deadline_ ≤ t →
      proxy.step q (.watchdog_timer t) = proxy.stop { q with watchdog_waiting := false }) ∧
    (proxy.stop p).client_open = false ∧
    (proxy.stop p).server_open = false ∧
    (proxy.stop p).log = p.log ++ [.close] ∧
    proxy.is_stopped (proxy.stop p) = true ∧
    closes (proxy.stop p).log = closes p.log + 1 ∧
    proxy.stop (proxy.stop p)
      = { proxy.stop p with log := (proxy.stop p).log ++ [.close] } ∧
    proxy.is_stopped (proxy.run (proxy.stop p) evs) = true ∧
    proxy.on_watchdog_timer now (proxy.stop p) = proxy.stop p ∧
    (client_to_server data script ⟨false, false, deadline⟩).1.client_open = false ∧
    (client_to_server data script ⟨false, false, deadline⟩).1.server_open = false ∧
    (server_to_client data script ⟨false, false, deadline⟩).1.client_open = false ∧
    (server_to_client data script ⟨false, false, deadline⟩).1.server_open = false ∧
    (watchdog now ⟨false, false, deadline⟩).1.client_open = false ∧
    (watchdog now ⟨false, false, deadline⟩).1.server_open = false := by
  have hs : proxy.is_stopped (proxy.stop p) = true := by simp [proxy.is_stopped, proxy.stop]
  obtain ⟨t1, t2, _⟩ := transfer_after_failure pre data state.deadline it rest hpre hfail
  refine ⟨?_, ?_, ?_, ?_, ?_, ?_, ?_, ?_, ?_, rfl, rfl, rfl, hs, ?_, rfl,
    proxy.run_stopped evs _ hs, ?_, ?_, ?_, ?_, ?_, ?_, ?_⟩
  · simp [client_to_server, t1, t2]
  · simp [server_to_client, t1, t2]
  · intro h
    have h2 : ¬ state.deadline > now := not_lt.mpr h
    simp [watchdog, h2]
  · intro h
    simp [client_to_server, server_to_client, h]
  · intro q hq
    simp [proxy.step, hq, proxy.on_client_read]
  · intro q t hq
    simp [proxy.step, hq, proxy.on_server_written]
  · intro q hq
    simp [proxy.step, hq, proxy.on_server_completed]
  · intro q hq
    simp [proxy.step, hq, proxy.on_client_written]
  · intro q t hw hq hd
    have hq2 : proxy.is_stopped { q with watchdog_waiting := false } = false := hq
    have h2 : ¬ q.deadline_ > t := not_lt.mpr hd
    simp [proxy.step, hw, proxy.on_watchdog_timer, hq2, h2]
  · simp [proxy.stop, closes_append, closes]
  · simp [proxy.on_watchdog_timer, hs]
  · cases h : (transfer data deadline script).returned <;> simp [client_to_server, h]
  · cases h : (transfer data deadline script).returned <;> simp [client_to_server, h]
  · cases h : (transfer data deadline script).returned <;> simp [server_to_client, h]
  · cases h : (transfer data deadline script).returned <;> simp [server_to_client, h]
  · by_cases h : deadline > now <;> simp [watchdog, h]
  · by_cases h : deadline > now <;> simp [watchdog, h]

/-- Witness of C16: on an open connection of `episode1/step_3.cpp` one chunk is
relayed and the next read fails; the direction closes both sockets. -/
theorem C16_teardown_idempotent_witness :
    (client_to_server [] ([⟨1, some "a".toList, false⟩] ++ ⟨2, none, false⟩ :: [])
        ⟨true, true, 0⟩).1
      = ⟨false, false,
          (transfer [] 0 ([⟨1, some "a".toList, false⟩] ++ [⟨2, none, false⟩])).deadline⟩ ∧
    (server_to_client [] ([⟨1, some "a".toList, false⟩] ++ ⟨2, none, false⟩ :: [])
        ⟨true, true, 0⟩).1
      = ⟨false, false,
          (transfer [] 0 ([⟨1, some "a".toList, false⟩] ++ [⟨2, none, false⟩])).deadline⟩ ∧
    proxy.is_stopped (proxy.step
        (proxy.run (proxy.connect_to_server (proxy.make [] [])) [.connected false 0])
        (.client_read none)) = true := by
  have h := C16_teardown_idempotent (proxy.make [] []) [] 0 [] [] 0 ⟨true, true, 0⟩
    [⟨1, some "a".toList, false⟩] ⟨2, none, false⟩ []
    (by intro x hx; simp at hx; subst hx; exact ⟨⟨_, rfl⟩, rfl⟩) (Or.inl rfl)
  exact ⟨h.1, h.2.1, by decide⟩

/-- C16 as stated fails: on a connected callback proxy the client read fails
and `stop` closes the sockets; the upstream read, aborted by the close,
completes with an error and its handler executes `stop` a second time. -/
theorem C16_counterexample_stop_runs_twice :
    closes (proxy.run (proxy.connect_to_server (proxy.make [] []))
      [.connected false 0, .client_read none]).log = 1 ∧
    closes (proxy.run (proxy.connect_to_server (proxy.make [] []))
      [.connected false 0, .client_read none, .server_completed (.read none)]).log = 2 := by
  decide

/-- C17: when the handler of the watchdog timer runs on a callback proxy for
which `is_stopped()` holds, it does nothing: the proxy, its log included, is
as before, so the timer is not set again and `stop` is not called; and after
every call of `stop`, `is_stopped()` holds. -/
theorem C17_watchdog_guard (now : Int) (p : proxy) (h : proxy.is_stopped p = true) :
    proxy.on_watchdog_timer now p = p ∧
    proxy.step { p with watchdog_waiting := true } (.watchdog_timer now)
      = { p with watchdog_waiting := false } ∧
    (∀ q : proxy, proxy.is_stopped (proxy.stop q) = true) := by
  have h' : proxy.is_stopped { p with watchdog_waiting := false } = true := h
  refine ⟨by simp [proxy.on_watchdog_timer, h], ?_, ?_⟩
  · simp [proxy.step, proxy.on_watchdog_timer, h']
  · intro q
    simp [proxy.is_stopped, proxy.stop]

/-- Witness of C17: a connected proxy whose client read failed; the watchdog
timer, cancelled by `stop`, runs its handler. -/
theorem C17_watchdog_guard_witness :
    proxy.on_watchdog_timer 7
        (proxy.run (proxy.connect_to_server (proxy.make [] []))
          [.connected false 0, .client_read none])
      = proxy.run (proxy.connect_to_server (proxy.make [] []))
          [.connected false 0, .client_read none] ∧
    proxy.step
        { proxy.run (proxy.connect_to_server (proxy.make [] []))
            [.connected false 0, .client_read none] with watchdog_waiting := true }
        (.watchdog_timer 7)
      = { proxy.run (proxy.connect_to_server (proxy.make [] []))
            [.connected false 0, .client_read none] with watchdog_waiting := false } ∧
    (∀ q : proxy, proxy.is_stopped (proxy.stop q) = true) :=
  C17_watchdog_guard 7
    (proxy.run (proxy.connect_to_server (proxy.make [] []))
      [.connected false 0, .client_read none])
    (by decide)

/-! ## The remaining claims on the framer and the relay -/

/-- On a stream whose data chunks are non-empty, a read that completes without
error found a delimiter: its count is one past the delimiter's position and no
cancellation was recorded. -/
theorem async_read_until_success (stream : List ReadEvent) :
    ∀ (buf : Bytes) (n : Nat) (c : Bool) (b : Bytes) (rest : List ReadEvent),
      (∀ chunk, ReadEvent.data chunk ∈ stream → chunk ≠ []) →
      async_read_until buf stream = .done false n c b rest →
      ∃ i, find delim b = some i ∧ n = i + 1 ∧ c = false := by
  induction stream with
  | nil =>
    intro buf n c b rest _ h
    cases hf : find delim buf with
    | none => simp [async_read_until, hf] at h
    | some i =>
      simp [async_read_until, hf] at h
      obtain ⟨h1, h2, h3, _⟩ := h
      exact ⟨i, by rw [← h3]; exact hf, h1.symm, h2⟩
  | cons ev evs ih =>
    intro buf n c b rest hne h
    cases hf : find delim buf with
    | some i =>
      simp [async_read_until, hf] at h
      obtain ⟨h1, h2, h3, _⟩ := h
      exact ⟨i, by rw [← h3]; exact hf, h1.symm, h2⟩
    | none =>
      cases ev with
      | data chunk =>
        have hc : chunk ≠ [] := hne chunk (List.mem_cons_self _ _)
        simp [async_read_until, hf, hc] at h
        exact ih _ n c b rest (fun x hx => hne x (List.mem_cons_of_mem _ hx)) h
      | error => simp [async_read_until, hf] at h
      | cancel => simp [async_read_until, hf] at h

theorem step_7.session_nil_suspended (fuel : Nat) :
    ∀ (buf : Bytes) (r : SessionRun), step_7.session fuel buf [] = some r →
      r.returned = false := by
  induction fuel with
  | zero => intro buf r h; simp [step_7.session] at h
  | succ fuel ih =>
    intro buf r h
    cases hf : find delim buf with
    | none =>
      simp [step_7.session, step_7.read_message, async_read_until, hf] at h
      rw [← h]
    | some i =>
      obtain ⟨h1, _⟩ := find_eq_some hf
      have hm : buf.take (i + 1) ≠ [] := by
        rw [h1]; simp
      simp [step_7.session, step_7.read_message, async_read_until, hf,
        step_7.read_message_tail, hm] at h
      obtain ⟨r', hr', rfl⟩ := h
      simpa [SessionRun.push] using ih _ r' hr'

theorem step_8.timed_session_nil_suspended (fuel : Nat) :
    ∀ (buf : Bytes) (r : SessionRun), step_8.session fuel buf [] = some r →
      r.returned = false := by
  induction fuel with
  | zero => intro buf r h; simp [step_8.session] at h
  | succ fuel ih =>
    intro buf r h
    cases hf : find delim buf with
    | none =>
      simp [step_8.session, step_8.read_message, async_read_until, hf] at h
      rw [← h]
    | some i =>
      obtain ⟨h1, _⟩ := find_eq_some hf
      have hm : buf.take (i + 1) ≠ [] := by
        rw [h1]; simp
      simp [step_8.session, step_8.read_message, async_read_until, hf,
        step_8.read_message_tail, hm] at h
      obtain ⟨r', hr', rfl⟩ := h
      simpa [SessionRun.push] using ih _ r' hr'

/-- C18: on every buffer content and every stream of non-empty chunks, when
the read of `read_message` completes, the string returned is empty exactly
when the read failed (`step_7.cpp`), or when the read failed or cancellation
was requested (`step_8.cpp`); a read that succeeded yields a non-empty
message.  So a session fed only with data never takes a message for the end
of the stream: whatever it has printed, it has not returned. -/
theorem C18_empty_string_means_done
    (message_buffer_ : Bytes) (stream : List ReadEvent) (e cancelled : Bool) (n : Nat)
    (buffer : Bytes) (rest : List ReadEvent)
    (hne : ∀ chunk, ReadEvent.data chunk ∈ stream → chunk ≠ [])
    (h : async_read_until message_buffer_ stream = .done e n cancelled buffer rest) :
    step_7.read_message message_buffer_ stream
      = .returned (step_7.read_message_tail e n buffer).1 false
          (step_7.read_message_tail e n buffer).2 rest ∧
    step_8.read_message message_buffer_ stream
      = .returned (step_8.read_message_tail cancelled e n buffer).1 cancelled
          (step_8.read_message_tail cancelled e n buffer).2 rest ∧
    ((step_7.read_message_tail e n buffer).1 = [] ↔ e = true) ∧
    ((step_8.read_message_tail cancelled e n buffer).1 = [] ↔ (cancelled = true ∨ e = true)) ∧
    (∀ (fuel : Nat) (buf : Bytes) (chunks : List Bytes) (r : SessionRun),
      (∀ c ∈ chunks, c ≠ []) →
      (step_7.session fuel buf (chunks.map .data) = some r → r.returned = false) ∧
      (step_8.session fuel buf (chunks.map .data) = some r → r.returned = false)) := by
  refine ⟨by simp [step_7.read_message, h], by simp [step_8.read_message, h], ?_, ?_, ?_⟩
  · cases e with
    | true => simp [step_7.read_message_tail]
    | false =>
      obtain ⟨i, hi, hn, _⟩ := async_read_until_success stream _ n cancelled buffer rest hne h
      obtain ⟨h1, _⟩ := find_eq_some hi
      simp [step_7.read_message_tail, hn, h1]
  · cases e with
    | true => cases cancelled <;> simp [step_8.read_message_tail]
    | false =>
      obtain ⟨i, hi, hn, hc⟩ := async_read_until_success stream _ n cancelled buffer rest hne h
      obtain ⟨h1, _⟩ := find_eq_some hi
      simp [step_8.read_message_tail, hn, h1, hc]
  · intro fuel buf chunks r hc
    constructor
    · intro hr
      rw [step_7.session_chunks fuel chunks buf hc] at hr
      exact step_7.session_nil_suspended fuel _ r hr
    · intro hr
      rw [step_8.timed_session_chunks fuel chunks buf hc] at hr
      exact step_8.timed_session_nil_suspended fuel _ r hr

/-- Witness of C18: the stream delivers a delimiter alone, the shortest
message there is. -/
theorem C18_empty_string_means_done_witness :
    step_7.read_message [] [.data "|".toList]
      = .returned (step_7.read_message_tail false 1 "|".toList).1 false
          (step_7.read_message_tail false 1 "|".toList).2 [] ∧
    step_8.read_message [] [.data "|".toList]
      = .returned (step_8.read_message_tail false false 1 "|".toList).1 false
          (step_8.read_message_tail false false 1 "|".toList).2 [] ∧
    ((step_7.read_message_tail false 1 "|".toList).1 = [] ↔ false = true) ∧
    ((step_8.read_message_tail false false 1 "|".toList).1 = []
      ↔ (false = true ∨ false = true)) ∧
    (∀ (fuel : Nat) (buf : Bytes) (chunks : List Bytes) (r : SessionRun),
      (∀ c ∈ chunks, c ≠ []) →
      (step_7.session fuel buf (chunks.map .data) = some r → r.returned = false) ∧
      (step_8.session fuel buf (chunks.map .data) = some r → r.returned = false)) :=
  C18_empty_string_means_done [] [.data "|".toList] false false 1 "|".toList []
    (by intro chunk hc; simp at hc; subst hc; decide) (by decide)

/-- The operations of a `transfer` whose iterations succeed up to one that
fails are exactly the relayed pairs of the successful iterations followed by
the failing read, or by the read and the failing write: nothing after. -/
theorem transfer_ops_after_failure (pre : List Iteration) :
    ∀ (data : Bytes) (deadline : Int) (it : Iteration) (rest : List Iteration),
      (∀ x ∈ pre, (∃ chunk, x.read = some chunk) ∧ x.e2 = false) →
      (it.read = none ∨ it.e2 = true) →
      (it.read = none →
        (transfer data deadline (pre ++ it :: rest)).ops = relayed pre ++ [.read]) ∧
      (∀ chunk, it.read = some chunk →
        (transfer data deadline (pre ++ it :: rest)).ops
          = relayed pre ++ [.read, .write (chunk.take 1024)]) := by
  induction pre with
  | nil =>
    intro data deadline it rest _ hfail
    constructor
    · intro hn
      simp [transfer, hn, relayed]
    · intro chunk hc
      have he : it.e2 = true := by
        rcases hfail with h | h
        · rw [hc] at h; exact Option.noConfusion h
        · exact h
      simp [transfer, hc, he, relayed, buffer_read_some, data_size]
  | cons x xs ih =>
    intro data deadline it rest hpre hfail
    obtain ⟨⟨c, hx⟩, he⟩ := hpre x (List.mem_cons_self _ _)
    obtain ⟨h1, h2⟩ := ih (read_some data c).1 (refresh_deadline deadline x.now) it rest
      (fun y hy => hpre y (List.mem_cons_of_mem _ hy)) hfail
    rw [List.cons_append, transfer_cons_ok data deadline x _ c hx he]
    constructor
    · intro hn
      simp [relayed, hx, h1 hn, buffer_read_some, data_size]
    · intro chunk hc
      simp [relayed, hx, h2 chunk hc, buffer_read_some, data_size]

theorem episode1_step_7.timed_transfer_ops_after_failure
    (pre : List episode1_step_7.Iteration) :
    ∀ (data : Bytes) (it : episode1_step_7.Iteration) (rest : List episode1_step_7.Iteration),
      (∀ x ∈ pre, (∃ chunk, x.read = some (some chunk)) ∧ x.write = some false) →
      ((∀ chunk, it.read ≠ some (some chunk)) ∨ it.write ≠ some false) →
      ((∀ chunk, it.read ≠ some (some chunk)) →
        (episode1_step_7.transfer data (pre ++ it :: rest)).1 = timed_relayed pre ++ [.read]) ∧
      (∀ chunk, it.read = some (some chunk) →
        (episode1_step_7.transfer data (pre ++ it :: rest)).1
          = timed_relayed pre ++ [.read, .write (chunk.take 1024)]) := by
  induction pre with
  | nil =>
    intro data it rest _ hfail
    constructor
    · intro hn
      rcases hr : it.read with _ | _ | chunk
      · simp [episode1_step_7.transfer, hr, timed_relayed]
      · simp [episode1_step_7.transfer, hr, timed_relayed]
      · exact absurd hr (hn chunk)
    · intro chunk hc
      have hw : it.write ≠ some false := by
        rcases hfail with h | h
        · exact absurd hc (h chunk)
        · exact h
      rcases hw2 : it.write with _ | e2
      · simp [episode1_step_7.transfer, hc, hw2, timed_relayed, buffer_read_some, data_size]
      · cases e2 with
        | false => exact absurd hw2 hw
        | true =>
          simp [episode1_step_7.transfer, hc, hw2, timed_relayed, buffer_read_some, data_size]
  | cons x xs ih =>
    intro data it rest hpre hfail
    obtain ⟨⟨c, hx⟩, hw⟩ := hpre x (List.mem_cons_self _ _)
    obtain ⟨h1, h2⟩ := ih (read_some data c).1 it rest
      (fun y hy => hpre y (List.mem_cons_of_mem _ hy)) hfail
    rw [List.cons_append, episode1_step_7.timed_transfer_cons_ok data x _ c hx hw]
    constructor
    · intro hn
      simp [timed_relayed, hx, h1 hn, buffer_read_some, data_size]
    · intro chunk hc
      simp [timed_relayed, hx, h2 chunk hc, buffer_read_some, data_size]

/-- C19: a relay direction does not retry.  In `transfer` (`step_5.cpp`), after
iterations that all succeed, an iteration whose read or write fails ends the
loop.  The operations started are exactly a read and a write for each
successful iteration, then the failing read and nothing more, or the read and
the failing write and nothing more: no further read, no further write, and no
write after a failed read.  The run is the same whatever the environment
would answer afterwards, and the coroutine has returned.  The same holds for
`transfer` of `step_7.cpp`, where a timeout ends the loop as well.  In the
callback proxy a failed client read or a failed write to the server leaves
only `stop` in the log and no handler of that chain outstanding, so that no
later completion of the chain starts anything; the same holds for a failed
upstream read and a failed write to the client. -/
theorem C19_no_retry_after_failure
    (data : Bytes) (deadline : Int) (pre : List Iteration) (it : Iteration)
    (rest : List Iteration)
    (hpre : ∀ x ∈ pre, (∃ chunk, x.read = some chunk) ∧ x.e2 = false)
    (hfail : it.read = none ∨ it.e2 = true) :
    (it.read = none →
      (transfer data deadline (pre ++ it :: rest)).ops = relayed pre ++ [.read]) ∧
    (∀ chunk, it.read = some chunk →
      (transfer data deadline (pre ++ it :: rest)).ops
        = relayed pre ++ [.read, .write (chunk.take 1024)]) ∧
    (transfer data deadline (pre ++ it :: rest)).returned = true ∧
    transfer data deadline (pre ++ it :: rest) = transfer data deadline (pre ++ [it]) ∧
    (transfer data deadline (pre ++ [it])).returned = true ∧
    (it.read = none → ∃ ops, (transfer data deadline (pre ++ [it])).ops = ops ++ [.read]) ∧
    (∀ (pre' : List episode1_step_7.Iteration) (it' : episode1_step_7.Iteration)
        (rest' : List episode1_step_7.Iteration),
      (∀ x ∈ pre', (∃ chunk, x.read = some (some chunk)) ∧ x.write = some false) →
      ((∀ chunk, it'.read ≠ some (some chunk)) ∨ it'.write ≠ some false) →
      ((∀ chunk, it'.read ≠ some (some chunk)) →
        (episode1_step_7.transfer data (pre' ++ it' :: rest')).1
          = timed_relayed pre' ++ [.read]) ∧
      (∀ chunk, it'.read = some (some chunk) →
        (episode1_step_7.transfer data (pre' ++ it' :: rest')).1
          = timed_relayed pre' ++ [.read, .write (chunk.take 1024)]) ∧
      (episode1_step_7.transfer data (pre' ++ it' :: rest')).2 = true ∧
      episode1_step_7.transfer data (pre' ++ it' :: rest')
        = episode1_step_7.transfer data (pre' ++ [it']) ∧
      (episode1_step_7.transfer data (pre' ++ [it'])).2 = true ∧
      ((∀ chunk, it'.read ≠ some (some chunk)) →
        ∃ ops, (episode1_step_7.transfer data (pre' ++ [it'])).1 = ops ++ [.read])) ∧
    (∀ (p : proxy) (script : List Iteration), p.client_chain = .reading →
      (proxy.step p (.client_read none)).log = p.log ++ [.close] ∧
      proxy.run (proxy.step p (.client_read none)) (relay_completions script)
        = proxy.step p (.client_read none)) ∧
    (∀ (p : proxy) (now : Int) (script : List Iteration), p.client_chain = .writing →
      (proxy.step p (.server_written true now)).log = p.log ++ [.close] ∧
      proxy.run (proxy.step p (.server_written true now)) (relay_completions script)
        = proxy.step p (.server_written true now)) ∧
    (∀ (p : proxy) (ev : Event), p.server_chain = .reading →
      (ev = .server_completed .timer ∨ ev = .client_written false ∨ ev = .client_written true
        ∨ ∃ r, ev = .server_completed (.read r)) →
      (proxy.step p (.server_completed (.read none))).log = p.log ++ [.close] ∧
      proxy.step (proxy.step p (.server_completed (.read none))) ev
        = proxy.step p (.server_completed (.read none))) ∧
    (∀ (p : proxy) (ev : Event), p.server_chain = .writing →
      (ev = .server_completed .timer ∨ ev = .client_written false ∨ ev = .client_written true
        ∨ ∃ r, ev = .server_completed (.read r)) →
      (proxy.step p (.client_written true)).log = p.log ++ [.close] ∧
      proxy.step (proxy.step p (.client_written true)) ev
        = proxy.step p (.client_written true)) := by
  obtain ⟨h1, h2, h3⟩ := transfer_after_failure pre data deadline it rest hpre hfail
  obtain ⟨o1, o2⟩ := transfer_ops_after_failure pre data deadline it rest hpre hfail
  refine ⟨o1, o2, by rw [h1]; exact h2, h1, h2, h3, ?_, ?_, ?_, ?_, ?_⟩
  · intro pre' it' rest' hp hf
    obtain ⟨t1, t2, t3⟩ :=
      episode1_step_7.timed_transfer_after_failure pre' data it' rest' hp hf
    obtain ⟨u1, u2⟩ :=
      episode1_step_7.timed_transfer_ops_after_failure pre' data it' rest' hp hf
    exact ⟨u1, u2, by rw [t1]; exact t2, t1, t2, t3⟩
  · intro p script hp
    refine ⟨by simp [proxy.step, hp, proxy.on_client_read, proxy.stop], ?_⟩
    apply proxy.run_relay_completions_idle
    simp [proxy.step, hp, proxy.on_client_read, proxy.stop]
  · intro p now script hp
    refine ⟨by simp [proxy.step, hp, proxy.on_server_written, proxy.stop], ?_⟩
    apply proxy.run_relay_completions_idle
    simp [proxy.step, hp, proxy.on_server_written, proxy.stop]
  · intro p ev hp hev
    refine ⟨by simp [proxy.step, hp, proxy.on_server_completed, proxy.stop], ?_⟩
    rcases hev with rfl | rfl | rfl | ⟨r, rfl⟩ <;>
      simp [proxy.step, hp, proxy.on_server_completed, proxy.stop]
  · intro p ev hp hev
    refine ⟨by simp [proxy.step, hp, proxy.on_client_written, proxy.stop], ?_⟩
    rcases hev with rfl | rfl | rfl | ⟨r, rfl⟩ <;>
      simp [proxy.step, hp, proxy.on_client_written, proxy.stop]

/-- Witness of C19: one chunk is relayed, the next read fails, and a chunk the
source would deliver afterwards is never asked for: the operations are the
read and write of `a` and the failed read.  When instead the write of `a`
fails, or times out in `step_7.cpp`, the operations are the read and that
write. -/
theorem C19_no_retry_after_failure_witness :
    (transfer [] 0 ([⟨1, some "a".toList, false⟩] ++ ⟨2, none, false⟩
        :: [⟨3, some "b".toList, false⟩])).ops
      = relayed [⟨1, some "a".toList, false⟩] ++ [.read] ∧
    (transfer [] 0 ([⟨1, some "a".toList, false⟩] ++ ⟨2, none, false⟩
        :: [⟨3, some "b".toList, false⟩])).returned = true ∧
    relayed [⟨1, some "a".toList, false⟩] ++ [.read]
      = [.read, .write "a".toList, .read] ∧
    transfer [] 0 [⟨1, some "a".toList, true⟩, ⟨2, some "b".toList, false⟩]
      = ⟨seconds 5 + 1, [.read, .write "a".toList], true⟩ ∧
    episode1_step_7.transfer []
        [⟨some (some "a".toList), none⟩, ⟨some (some "b".toList), some false⟩]
      = ([.read, .write "a".toList], true) := by
  have h := C19_no_retry_after_failure [] 0 [⟨1, some "a".toList, false⟩] ⟨2, none, false⟩
    [⟨3, some "b".toList, false⟩]
    (by intro x hx; simp at hx; subst hx; exact ⟨⟨_, rfl⟩, rfl⟩) (Or.inl rfl)
  exact ⟨h.1 rfl, h.2.2.1, by decide, by decide, by decide⟩

theorem appended_append (l₁ l₂ : List ReadEvent) :
    appended (l₁ ++ l₂) = appended l₁ ++ appended l₂ := by
  induction l₁ with
  | nil => rfl
  | cons ev l ih => cases ev <;> simp [appended, ih]

/-- A read appends to the buffer exactly the data of the events it consumes. -/
theorem async_read_until_conserves (stream : List ReadEvent) :
    ∀ buf : Bytes,
      (∀ b, async_read_until buf stream = .pending b → b = buf ++ appended stream) ∧
      (∀ e n c b rest, async_read_until buf stream = .done e n c b rest →
        n ≤ b.length ∧ ∃ consumed, stream = consumed ++ rest ∧ b = buf ++ appended consumed) := by
  induction stream with
  | nil =>
    intro buf
    cases hf : find delim buf with
    | none => simp [async_read_until, hf, appended]
    | some i =>
      obtain ⟨_, hi⟩ := find_eq_some hf
      simp only [async_read_until, hf]
      refine ⟨fun b h => ReadUntil.noConfusion h, ?_⟩
      intro e n c b rest h
      simp at h
      obtain ⟨_, hn, _, hb, hr⟩ := h
      subst hn hb hr
      exact ⟨by omega, [], rfl, by simp [appended]⟩
  | cons ev evs ih =>
    intro buf
    cases hf : find delim buf with
    | some i =>
      obtain ⟨_, hi⟩ := find_eq_some hf
      simp only [async_read_until, hf]
      refine ⟨fun b h => ReadUntil.noConfusion h, ?_⟩
      intro e n c b rest h
      simp at h
      obtain ⟨_, hn, _, hb, hr⟩ := h
      subst hn hb hr
      exact ⟨by omega, [], rfl, by simp [appended]⟩
    | none =>
      cases ev with
      | data chunk =>
        by_cases hc : chunk = []
        · simp only [async_read_until, hf, hc, if_true]
          refine ⟨fun b h => ReadUntil.noConfusion h, ?_⟩
          intro e n c b rest h
          simp at h
          obtain ⟨_, hn, _, hb, hr⟩ := h
          subst hn hb hr
          exact ⟨le_refl _, [.data []], rfl, by simp [appended]⟩
        · obtain ⟨ih1, ih2⟩ := ih (buf ++ chunk)
          simp only [async_read_until, hf, hc, if_false]
          refine ⟨fun b h => by simpa [appended] using ih1 b h, ?_⟩
          intro e n c b rest h
          obtain ⟨hn, consumed, h1, h2⟩ := ih2 e n c b rest h
          exact ⟨hn, .data chunk :: consumed, by simp [h1], by simp [appended, h2]⟩
      | error =>
        simp only [async_read_until, hf]
        refine ⟨fun b h => ReadUntil.noConfusion h, ?_⟩
        intro e n c b rest h
        simp at h
        obtain ⟨_, hn, _, hb, hr⟩ := h
        subst hn hb hr
        exact ⟨Nat.zero_le _, [.error], rfl, by simp [appended]⟩
      | cancel =>
        simp only [async_read_until, hf]
        refine ⟨fun b h => ReadUntil.noConfusion h, ?_⟩
        intro e n c b rest h
        simp at h
        obtain ⟨_, hn, _, hb, hr⟩ := h
        subst hn hb hr
        exact ⟨Nat.zero_le _, [.cancel], rfl, by simp [appended]⟩

/-- Successive calls of a `read_message` that, call by call, returns and leaves
in the buffer exactly what was there plus what its read appended, conserve
the bytes over the whole sequence. -/
theorem calls_conserve (read_message : Bytes → List ReadEvent → ReadMessage)
    (hp : ∀ buf stream b, read_message buf stream = .pending b → b = buf ++ appended stream)
    (hr : ∀ buf stream m c b rest, read_message buf stream = .returned m c b rest →
      ∃ consumed, stream = consumed ++ rest ∧ m ++ b = buf ++ appended consumed)
    (k : Nat) :
    ∀ (buf : Bytes) (stream : List ReadEvent),
      ∃ consumed, stream = consumed ++ (calls read_message k buf stream).rest ∧
        (calls read_message k buf stream).messages.flatten
            ++ (calls read_message k buf stream).message_buffer_
          = buf ++ appended consumed := by
  induction k with
  | zero => intro buf stream; exact ⟨[], rfl, by simp [calls, appended]⟩
  | succ k ih =>
    intro buf stream
    cases h : read_message buf stream with
    | pending b =>
      refine ⟨stream, by simp [calls, h], ?_⟩
      simp [calls, h, hp buf stream b h]
    | returned m c b rest =>
      obtain ⟨consumed, h1, h2⟩ := hr buf stream m c b rest h
      obtain ⟨consumed', h3, h4⟩ := ih b rest
      refine ⟨consumed ++ consumed', ?_, ?_⟩
      · simp only [calls, h]
        rw [List.append_assoc, ← h3, ← h1]
      · simp only [calls, h, List.flatten_cons, List.append_assoc]
        rw [h4, ← List.append_assoc, h2, appended_append, List.append_assoc]

theorem step_7.read_message_conserves :
    (∀ buf stream b, step_7.read_message buf stream = .pending b →
      b = buf ++ appended stream) ∧
    (∀ buf stream m c b rest, step_7.read_message buf stream = .returned m c b rest →
      ∃ consumed, stream = consumed ++ rest ∧ m ++ b = buf ++ appended consumed) := by
  constructor
  · intro buf stream b h
    cases hr : async_read_until buf stream with
    | pending b₂ =>
      simp [step_7.read_message, hr] at h
      rw [← h]
      exact (async_read_until_conserves stream buf).1 b₂ hr
    | done e n c b₂ rest => simp [step_7.read_message, hr] at h
  · intro buf stream m c b rest h
    cases hr : async_read_until buf stream with
    | pending b₂ => simp [step_7.read_message, hr] at h
    | done e n c₂ b₂ rest₂ =>
      obtain ⟨_, consumed, h1, h2⟩ := (async_read_until_conserves stream buf).2 e n c₂ b₂ rest₂ hr
      simp only [step_7.read_message, hr, ReadMessage.returned.injEq] at h
      obtain ⟨hm, _, hb, hrest⟩ := h
      refine ⟨consumed, by rw [← hrest]; exact h1, ?_⟩
      rw [← hm, ← hb, ← h2]
      cases e <;> simp [step_7.read_message_tail]

theorem step_8.timed_read_message_conserves :
    (∀ buf stream b, step_8.read_message buf stream = .pending b →
      b = buf ++ appended stream) ∧
    (∀ buf stream m c b rest, step_8.read_message buf stream = .returned m c b rest →
      ∃ consumed, stream = consumed ++ rest ∧ m ++ b = buf ++ appended consumed) := by
  constructor
  · intro buf stream b h
    cases hr : async_read_until buf stream with
    | pending b₂ =>
      simp [step_8.read_message, hr] at h
      rw [← h]
      exact (async_read_until_conserves stream buf).1 b₂ hr
    | done e n c b₂ rest => simp [step_8.read_message, hr] at h
  · intro buf stream m c b rest h
    cases hr : async_read_until buf stream with
    | pending b₂ => simp [step_8.read_message, hr] at h
    | done e n c₂ b₂ rest₂ =>
      obtain ⟨_, consumed, h1, h2⟩ := (async_read_until_conserves stream buf).2 e n c₂ b₂ rest₂ hr
      simp only [step_8.read_message, hr, ReadMessage.returned.injEq] at h
      obtain ⟨hm, _, hb, hrest⟩ := h
      refine ⟨consumed, by rw [← hrest]; exact h1, ?_⟩
      rw [← hm, ← hb, ← h2]
      cases e <;> cases c₂ <;> simp [step_8.read_message_tail]

/-- C20: for every number of successive `read_message` calls on one reader
(both variants) and every stream, whatever mix of successful, failed and
cancelled calls results, the returned messages concatenated in call order,
followed by the final content of the message buffer, are exactly the initial
content of the buffer (empty for a new reader) followed by the bytes of the
stream events the reads consumed, in order. -/
theorem C20_bytes_conserved (k : Nat) (message_buffer_ : Bytes) (stream : List ReadEvent) :
    (∃ consumed, stream = consumed ++ (calls step_7.read_message k message_buffer_ stream).rest ∧
      (calls step_7.read_message k message_buffer_ stream).messages.flatten
          ++ (calls step_7.read_message k message_buffer_ stream).message_buffer_
        = message_buffer_ ++ appended consumed) ∧
    (∃ consumed, stream = consumed ++ (calls step_8.read_message k message_buffer_ stream).rest ∧
      (calls step_8.read_message k message_buffer_ stream).messages.flatten
          ++ (calls step_8.read_message k message_buffer_ stream).message_buffer_
        = message_buffer_ ++ appended consumed) :=
  ⟨calls_conserve step_7.read_message step_7.read_message_conserves.1
      step_7.read_message_conserves.2 k message_buffer_ stream,
    calls_conserve step_8.read_message step_8.timed_read_message_conserves.1
      step_8.timed_read_message_conserves.2 k message_buffer_ stream⟩

end TalkingAsync
